import Mathlib

/-!
Shallow embedding of the response-processing core of the Baiterek tourist-
assistance demo (two AWS Lambda handlers):
  * src/functions/ai-guide/src/lambda_function.py   (text path)
  * src/functions/vision-recognize/attraction-scanner.py  (vision path)

Conventions of the embedding:
  * Python `str` is modelled as `List Char` (`Str`); Python `bytes` as
    `List Nat` (byte values).
  * `str.lower()` is modelled on the ASCII range (`asciiLowerChar`); all
    marker/keyword comparisons in the source involve ASCII characters only.
  * Python floats are modelled as rationals (`ℚ`); at every concrete value
    appearing in the claims the float computations of the source are exact,
    so the rational model agrees with the binary-float behaviour there.
  * Regex substitutions of the source are modelled by executable scanning
    functions that implement the leftmost, non-overlapping, greedy
    (backtracking) semantics of `re.sub` / `re.search` for the concrete
    patterns appearing in the source.
  * Fallible code (raising) is modelled with `Except`.
-/

abbrev Str := List Char

/-- ASCII-range model of Python `str.lower()` applied to one character. -/
def asciiLowerChar (c : Char) : Char :=
  if 'A' ≤ c ∧ c ≤ 'Z' then Char.ofNat (c.toNat + 32) else c

/-- ASCII-range model of Python `str.lower()`. -/
def asciiLower (s : Str) : Str := s.map asciiLowerChar

/-- Python's whitespace characters for `str.strip()` (ASCII range). -/
def wsChar (c : Char) : Bool :=
  c == ' ' || c == '\t' || c == '\n' || c == '\r' || c == '\x0B' || c == '\x0C'

/-- Model of Python `str.strip()` (ASCII whitespace). -/
def pyStrip (l : Str) : Str :=
  ((l.dropWhile wsChar).reverse.dropWhile wsChar).reverse

/-- Generic right-strip with a character set, models `bytes.rstrip(cs)`. -/
def rstripSet {α : Type} (p : α → Bool) (l : List α) : List α :=
  (l.reverse.dropWhile p).reverse

/-- Boolean prefix test on lists (models `str.startswith` etc.). -/
def isPre {α : Type} [DecidableEq α] : List α → List α → Bool
  | [], _ => true
  | _ :: _, [] => false
  | a :: as, b :: bs => a = b && isPre as bs

/-- Case-insensitive prefix test on characters. -/
def isPreCI (pat l : Str) : Bool := isPre (asciiLower pat) (asciiLower l)

/-- Index of the first occurrence of `pat` as a contiguous sublist
(models `bytes.find` / leftmost regex literal search). -/
def findSubAux {α : Type} [DecidableEq α] (pat : List α) : List α → Option Nat
  | [] => if isPre pat [] then some 0 else none
  | l@(_ :: rest) =>
    if isPre pat l then some 0 else (findSubAux pat rest).map (· + 1)

/-- Case-insensitive leftmost search of a literal pattern
(models `text.lower().find(pat)` and case-insensitive literal regexes). -/
def findCI (pat l : Str) : Option Nat := findSubAux (asciiLower pat) (asciiLower l)

/-- Fuelled worker for `pySplit`. -/
def pySplitAux {α : Type} [DecidableEq α] (pat : List α) : Nat → List α → List (List α)
  | 0, l => [l]
  | f + 1, l =>
    match findSubAux pat l with
    | none => [l]
    | some i => l.take i :: pySplitAux pat f (l.drop (i + pat.length))

/-- Model of Python `bytes.split(pat)` / `str.split(pat)` for a nonempty
separator: leftmost, non-overlapping, keeps empty pieces. -/
def pySplit {α : Type} [DecidableEq α] (l pat : List α) : List (List α) :=
  if pat = [] then [l] else pySplitAux pat l.length l

/-- Fuelled worker for `pyReplace`. -/
def pyReplaceAux {α : Type} [DecidableEq α] (pat repl : List α) : Nat → List α → List α
  | 0, l => l
  | _ + 1, [] => []
  | f + 1, l@(c :: rest) =>
    if isPre pat l then repl ++ pyReplaceAux pat repl f (l.drop pat.length)
    else c :: pyReplaceAux pat repl f rest

/-- Model of Python `str.replace(pat, repl)` for a nonempty pattern:
leftmost, non-overlapping. -/
def pyReplace (pat repl l : Str) : Str := pyReplaceAux pat repl l.length l

/-- Number of leading elements satisfying `p`. -/
def countLeading {α : Type} (p : α → Bool) (l : List α) : Nat :=
  (l.takeWhile p).length

-- ---------------------------------------------------------------------------
-- ai-guide: persona helpers (lambda_function.py lines 177-189)
-- ---------------------------------------------------------------------------

/-- Model of `_persona_temperature(base, persona)`: float arithmetic is
modelled over ℚ (exact at every value the claims mention). -/
def persona_temperature (base : ℚ) (persona : Str) : ℚ :=
  if pyStrip (asciiLower persona) = "formal".toList then max (1/10) (base - 15/100)
  else if pyStrip (asciiLower persona) = "humorous".toList then min 1 (base + 4/10)
  else min 1 (base + 2/10)

/-- Model of `_persona_or_default(p)`. -/
def persona_or_default (p : Str) : Str :=
  let q := pyStrip (asciiLower p)
  if q = "friendly".toList ∨ q = "formal".toList ∨ q = "humorous".toList then q
  else "friendly".toList

-- ---------------------------------------------------------------------------
-- vision-recognize: landmark catalog and localized_name
-- (attraction-scanner.py lines 107-132)
-- ---------------------------------------------------------------------------

/-- A landmark catalog entry: a JSON object modelled as an association list
(first binding wins, as in a Python dict built from JSON). -/
structure Landmark where
  attrs : List (Str × Str)
deriving DecidableEq

/-- Model of `dict.get(k)` on a catalog entry. -/
def lmGet (lm : Landmark) (k : Str) : Option Str :=
  (lm.attrs.find? (fun kv => kv.1 = k)).map (·.2)

/-- Model of `localized_name(landmark_id, lang)`; the process-global
`LANDMARKS` list is passed explicitly as `catalog`.  The body mirrors
`lm.get(f"name_{lang}", lm.get("name_ru", landmark_id))` via `Option.getD`. -/
def localized_name (catalog : List Landmark) (landmark_id lang : Str) : Str :=
  match catalog.find? (fun lm => lmGet lm "id".toList = some landmark_id) with
  | some lm =>
    (lmGet lm ("name_".toList ++ lang)).getD ((lmGet lm "name_ru".toList).getD landmark_id)
  | none => landmark_id

-- ---------------------------------------------------------------------------
-- Claim C8: persona temperature mapping
-- ---------------------------------------------------------------------------

/-- C8: for every base temperature and persona tag, `_persona_temperature`
returns `max(0.1, base - 0.15)` for "formal", `min(1.0, base + 0.4)` for
"humorous", and `min(1.0, base + 0.2)` for "friendly" and any other input
(the function first lower-cases and strips the tag, so "other input" means
any tag not normalising to "formal" or "humorous"); in particular with base
0.3 it returns 0.15, 0.70, 0.50 and 0.50 respectively. -/
theorem C8_persona_temperature_spec :
    (∀ base : ℚ, persona_temperature base "formal".toList = max (1/10) (base - 15/100))
    ∧ (∀ base : ℚ, persona_temperature base "humorous".toList = min 1 (base + 4/10))
    ∧ (∀ base : ℚ, persona_temperature base "friendly".toList = min 1 (base + 2/10))
    ∧ (∀ (base : ℚ) (p : Str),
        pyStrip (asciiLower p) ≠ "formal".toList →
        pyStrip (asciiLower p) ≠ "humorous".toList →
        persona_temperature base p = min 1 (base + 2/10))
    ∧ persona_temperature (3/10) "formal".toList = 15/100
    ∧ persona_temperature (3/10) "humorous".toList = 7/10
    ∧ persona_temperature (3/10) "friendly".toList = 1/2
    ∧ persona_temperature (3/10) "unknown".toList = 1/2 := by
  have hformal : ∀ base : ℚ,
      persona_temperature base "formal".toList = max (1/10) (base - 15/100) := by
    intro base
    unfold persona_temperature
    rw [if_pos (by decide : pyStrip (asciiLower "formal".toList) = "formal".toList)]
  have hhum : ∀ base : ℚ,
      persona_temperature base "humorous".toList = min 1 (base + 4/10) := by
    intro base
    unfold persona_temperature
    rw [if_neg (by decide : ¬ pyStrip (asciiLower "humorous".toList) = "formal".toList),
        if_pos (by decide : pyStrip (asciiLower "humorous".toList) = "humorous".toList)]
  have hother : ∀ (base : ℚ) (p : Str),
      pyStrip (asciiLower p) ≠ "formal".toList →
      pyStrip (asciiLower p) ≠ "humorous".toList →
      persona_temperature base p = min 1 (base + 2/10) := by
    intro base p h1 h2
    unfold persona_temperature
    rw [if_neg h1, if_neg h2]
  have hfriendly : ∀ base : ℚ,
      persona_temperature base "friendly".toList = min 1 (base + 2/10) :=
    fun base => hother base "friendly".toList (by decide) (by decide)
  refine ⟨hformal, hhum, hfriendly, hother, ?_, ?_, ?_, ?_⟩
  · rw [hformal, max_eq_right (by norm_num)]
    norm_num
  · rw [hhum, min_eq_right (by norm_num)]
    norm_num
  · rw [hfriendly, min_eq_right (by norm_num)]
    norm_num
  · rw [hother (3/10) "unknown".toList (by decide) (by decide),
        min_eq_right (by norm_num)]
    norm_num

/-- C8 witness: the catch-all branch of `C8_persona_temperature_spec`
evaluated at the concrete unrecognized tag "unknown". -/
theorem C8_persona_temperature_spec_witness :
    persona_temperature (3/10) "unknown".toList = min 1 (3/10 + 2/10) :=
  C8_persona_temperature_spec.2.2.2.1 (3/10) "unknown".toList
    (by decide) (by decide)

-- ---------------------------------------------------------------------------
-- Claim C10: localized_name fallback chain
-- ---------------------------------------------------------------------------

/-- C10: `localized_name` returns the matched catalog entry's name for the
requested language when present, otherwise the entry's Russian name,
otherwise the id; and when no catalog entry carries the id it returns the id
unchanged.  It is a total function by construction. -/
theorem C10_localized_name_spec :
    (∀ (catalog : List Landmark) (id lang : Str) (lm : Landmark) (nm : Str),
        catalog.find? (fun e => lmGet e "id".toList = some id) = some lm →
        lmGet lm ("name_".toList ++ lang) = some nm →
        localized_name catalog id lang = nm)
    ∧ (∀ (catalog : List Landmark) (id lang : Str) (lm : Landmark) (rn : Str),
        catalog.find? (fun e => lmGet e "id".toList = some id) = some lm →
        lmGet lm ("name_".toList ++ lang) = none →
        lmGet lm "name_ru".toList = some rn →
        localized_name catalog id lang = rn)
    ∧ (∀ (catalog : List Landmark) (id lang : Str) (lm : Landmark),
        catalog.find? (fun e => lmGet e "id".toList = some id) = some lm →
        lmGet lm ("name_".toList ++ lang) = none →
        lmGet lm "name_ru".toList = none →
        localized_name catalog id lang = id)
    ∧ (∀ (catalog : List Landmark) (id lang : Str),
        catalog.find? (fun e => lmGet e "id".toList = some id) = none →
        localized_name catalog id lang = id) := by
  refine ⟨?_, ?_, ?_, ?_⟩
  · intro catalog id lang lm nm hf hn
    unfold localized_name
    rw [hf]
    show (lmGet lm ("name_".toList ++ lang)).getD ((lmGet lm "name_ru".toList).getD id) = nm
    rw [hn]
    rfl
  · intro catalog id lang lm rn hf hn hr
    unfold localized_name
    rw [hf]
    show (lmGet lm ("name_".toList ++ lang)).getD ((lmGet lm "name_ru".toList).getD id) = rn
    rw [hn, hr]
    rfl
  · intro catalog id lang lm hf hn hr
    unfold localized_name
    rw [hf]
    show (lmGet lm ("name_".toList ++ lang)).getD ((lmGet lm "name_ru".toList).getD id) = id
    rw [hn, hr]
    rfl
  · intro catalog id lang hf
    unfold localized_name
    rw [hf]

/-- C10 witness: a singleton catalog exercising the language-name branch of
`C10_localized_name_spec` at concrete inputs. -/
theorem C10_localized_name_spec_witness :
    localized_name
      [⟨[("id".toList, "bayterek".toList), ("name_ru".toList, "Байтерек".toList),
         ("name_en".toList, "Bayterek Tower".toList)]⟩]
      "bayterek".toList "en".toList = "Bayterek Tower".toList :=
  C10_localized_name_spec.1
    [⟨[("id".toList, "bayterek".toList), ("name_ru".toList, "Байтерек".toList),
       ("name_en".toList, "Bayterek Tower".toList)]⟩]
    "bayterek".toList "en".toList
    ⟨[("id".toList, "bayterek".toList), ("name_ru".toList, "Байтерек".toList),
      ("name_en".toList, "Bayterek Tower".toList)]⟩
    "Bayterek Tower".toList (by decide) (by decide)

-- ---------------------------------------------------------------------------
-- ai-guide: translation and the text-path handler's answer stage
-- (lambda_function.py lines 220-228 and 258-296)
-- ---------------------------------------------------------------------------

/-- Model of `_translate_from_ru(text, target_lang)`.  The AWS Translate call
is the collaborator parameter `call`; a raised exception is `Except.error`
and propagates (the Python function has no try/except).  On success the
source returns `resp.get("TranslatedText", "").strip() or text`: an empty
stripped result falls back to `text`. -/
def translate_from_ru (call : Str → Str → Except Str Str) (text target_lang : Str) :
    Except Str Str :=
  match call text
      (if isPre "kk".toList (asciiLower target_lang) then "kk".toList else "en".toList) with
  | .error e => .error e
  | .ok translated =>
    .ok (if pyStrip translated = [] then text else pyStrip translated)

/-- Projection of the text-path HTTP response to the fields the claims
mention (`_resp` wraps status and a JSON payload; we keep the status code,
the `answer` payload field of a 200 response, and the `error` field of an
error response). -/
structure AiResp where
  statusCode : Nat
  answer : Option Str
  error : Option Str
deriving DecidableEq

/-- Model of the tail of `lambda_handler` (ai-guide) after the RAG call and
sanitization: lines 275-278 choose translation for "kk"/"en" prefixes of the
already lower-cased `lang`; a raised `ClientError`/`Exception` is caught at
lines 293-296 and produces a 500 "inference_failed" response. -/
def ai_answer_stage (call : Str → Str → Except Str Str) (cleaned_ru lang : Str) : AiResp :=
  if isPre "kk".toList lang || isPre "en".toList lang then
    match translate_from_ru call cleaned_ru lang with
    | .ok a => { statusCode := 200, answer := some a, error := none }
    | .error _ => { statusCode := 500, answer := none, error := some "inference_failed".toList }
  else { statusCode := 200, answer := some cleaned_ru, error := none }

-- ---------------------------------------------------------------------------
-- Claim C2: translation failure handling
-- ---------------------------------------------------------------------------

/-- C2 counterexample: when the translation collaborator raises, the
text-path handler does NOT return a successful response with the
untranslated text: the exception escapes `_translate_from_ru`, is caught by
the handler's catch-all, and yields a 500 "inference_failed" response. -/
theorem C2_translate_exception_returns_500 :
    ai_answer_stage (fun _ _ => .error "ServiceUnavailable".toList)
        "Лид: тест".toList "en".toList
      = { statusCode := 500, answer := none, error := some "inference_failed".toList } := by
  decide

/-- C2 (amended): for every sanitized text and target language handled by
the translation branch, when the collaborator returns a result that strips
to the empty string the handler returns a 200 response whose answer is the
untranslated sanitized text; when the collaborator raises, the handler
instead returns a 500 error response (no fallback). -/
theorem C2_translation_fallback_spec :
    (∀ (call : Str → Str → Except Str Str) (cleaned lang s : Str),
        (isPre "kk".toList lang || isPre "en".toList lang) = true →
        call cleaned
            (if isPre "kk".toList (asciiLower lang) then "kk".toList else "en".toList)
          = .ok s →
        pyStrip s = [] →
        ai_answer_stage call cleaned lang
          = { statusCode := 200, answer := some cleaned, error := none })
    ∧ (∀ (call : Str → Str → Except Str Str) (cleaned lang e : Str),
        (isPre "kk".toList lang || isPre "en".toList lang) = true →
        call cleaned
            (if isPre "kk".toList (asciiLower lang) then "kk".toList else "en".toList)
          = .error e →
        ai_answer_stage call cleaned lang
          = { statusCode := 500, answer := none, error := some "inference_failed".toList }) := by
  constructor
  · intro call cleaned lang s hlang hcall hempty
    unfold ai_answer_stage translate_from_ru
    rw [hlang, hcall]
    show ({ statusCode := 200,
            answer := some (if pyStrip s = [] then cleaned else pyStrip s),
            error := none } : AiResp)
        = { statusCode := 200, answer := some cleaned, error := none }
    rw [hempty, if_pos rfl]
  · intro call cleaned lang e hlang hcall
    unfold ai_answer_stage translate_from_ru
    rw [hlang, hcall]
    rfl

/-- C2 witness: `C2_translation_fallback_spec` applied to a collaborator
returning a whitespace-only translation of a concrete text for "en". -/
theorem C2_translation_fallback_spec_witness :
    ai_answer_stage (fun _ _ => .ok "  ".toList) "Лид: тест".toList "en".toList
      = { statusCode := 200, answer := some "Лид: тест".toList, error := none } :=
  C2_translation_fallback_spec.1 (fun _ _ => .ok "  ".toList)
    "Лид: тест".toList "en".toList "  ".toList (by decide) rfl (by decide)

-- ---------------------------------------------------------------------------
-- ai-guide: citation extraction (lambda_function.py lines 142-174)
-- ---------------------------------------------------------------------------

/-- A retrieved reference: `location.s3Location.uri`, `location.webLocation.url`
and `content.text`, each possibly absent. -/
structure Ref where
  s3uri : Option Str := none
  weburl : Option Str := none
  contentText : Option Str := none
deriving DecidableEq

/-- A provenance record inside `generatedResponsePart.citations`. -/
structure Prov where
  retrievedReferences : List Ref := []
deriving DecidableEq

/-- One record of the top-level `citations` list. -/
structure CitRecord where
  generatedResponsePart_citations : List Prov := []
  retrievedReferences : List Ref := []
deriving DecidableEq

/-- The retrieval response shape consumed by `_extract_citations`.  The
top-level `retrievedReferences` key is `Option` because the source tests
`"retrievedReferences" in rag_response` (presence, not emptiness). -/
structure RagResponse where
  citations : List CitRecord := []
  retrievedReferences : Option (List Ref) := none
deriving DecidableEq

/-- One extracted citation: `{"uri": ..., "snippet": frag[:600]}`. -/
structure Cite where
  uri : Str
  snippet : Str
deriving DecidableEq

/-- Model of the uri chain
`ref.get("location",{}).get("s3Location",{}).get("uri") or (... webLocation url) or ""`:
Python `or` skips `None` and the empty string. -/
def refUri (r : Ref) : Str :=
  match r.s3uri with
  | some u => if u = [] then (match r.weburl with
      | some w => w
      | none => []) else u
  | none =>
    match r.weburl with
    | some w => if w = [] then [] else w
    | none => []

/-- The body of each inner `for ref in ...` loop: keep a citation exactly
when the computed uri is nonempty (`if uri:`), snippet = `frag[:600]`. -/
def citesFromRefs (refs : List Ref) : List Cite :=
  refs.filterMap (fun r =>
    if refUri r = [] then none
    else some { uri := refUri r, snippet := (r.contentText.getD []).take 600 })

/-- The accumulation over the top-level `citations` list: for each record,
first the nested `generatedResponsePart.citations[*].retrievedReferences`,
then the record's flat `retrievedReferences`. -/
def walkCites (records : List CitRecord) : List Cite :=
  records.flatMap (fun c =>
    citesFromRefs (c.generatedResponsePart_citations.flatMap (·.retrievedReferences))
    ++ citesFromRefs c.retrievedReferences)

/-- Model of `_extract_citations(rag_response)`: the nested walk, then the
top-level fallback only when the walk found nothing and the key is present,
then the `[:8]` cap. -/
def extract_citations (r : RagResponse) : List Cite :=
  (if walkCites r.citations = [] then
    match r.retrievedReferences with
    | some refs => walkCites r.citations ++ citesFromRefs refs
    | none => walkCites r.citations
  else walkCites r.citations).take 8

-- ---------------------------------------------------------------------------
-- Claim C6: citation extraction shape handling
-- ---------------------------------------------------------------------------

/-- C6: `_extract_citations` accumulates, for every citation record, both the
nested generated-part references and the record's flat references in that
order; it uses the top-level `retrievedReferences` fallback only when the
nested walk produced nothing; references whose uri chain is empty are
skipped; order is preserved and the result is capped at 8.  In particular a
response with only a top-level reference list yields exactly those
references (capped at 8), and a response whose nested walk found citations
ignores the top-level fallback entirely. -/
theorem C6_extract_citations_spec :
    (∀ c cs, walkCites (c :: cs)
        = citesFromRefs (c.generatedResponsePart_citations.flatMap (·.retrievedReferences))
          ++ citesFromRefs c.retrievedReferences ++ walkCites cs)
    ∧ (∀ r : RagResponse, (extract_citations r).length ≤ 8)
    ∧ (∀ r : RagResponse, walkCites r.citations ≠ [] →
        extract_citations r = (walkCites r.citations).take 8)
    ∧ (∀ refs : List Ref,
        extract_citations { citations := [], retrievedReferences := some refs }
          = (citesFromRefs refs).take 8)
    ∧ (∀ r : RagResponse, walkCites r.citations = [] → r.retrievedReferences = none →
        extract_citations r = [])
    ∧ (∀ (pre post : List Ref) (ref : Ref), refUri ref = [] →
        citesFromRefs (pre ++ ref :: post) = citesFromRefs (pre ++ post)) := by
  refine ⟨?_, ?_, ?_, ?_, ?_, ?_⟩
  · intro c cs
    unfold walkCites
    rw [List.flatMap_cons, List.append_assoc]
  · intro r
    unfold extract_citations
    exact (List.length_take _ _).trans_le (min_le_left _ _)
  · intro r hne
    unfold extract_citations
    rw [if_neg hne]
  · intro refs
    simp [extract_citations, walkCites]
  · intro r hw ht
    simp [extract_citations, hw, ht]
  · intro pre post ref h
    unfold citesFromRefs
    rw [List.filterMap_append, List.filterMap_append, List.filterMap_cons]
    simp only [h, reduceIte]

/-- C6 witness: `C6_extract_citations_spec`'s top-level-fallback and
nested-shape clauses applied at concrete responses. -/
theorem C6_extract_citations_spec_witness :
    extract_citations
        { citations := [],
          retrievedReferences := some [{ s3uri := some "s3://kb/a.txt".toList,
                                         contentText := some "frag".toList }] }
      = [{ uri := "s3://kb/a.txt".toList, snippet := "frag".toList }]
    ∧ extract_citations
        { citations := [{ generatedResponsePart_citations :=
            [{ retrievedReferences := [{ s3uri := some "s3://kb/b.txt".toList,
                                         contentText := some "frag2".toList }] }] }],
          retrievedReferences := some [] }
      = [{ uri := "s3://kb/b.txt".toList, snippet := "frag2".toList }] := by
  constructor
  · rw [C6_extract_citations_spec.2.2.2.1
      [{ s3uri := some "s3://kb/a.txt".toList, contentText := some "frag".toList }]]
    decide
  · rw [C6_extract_citations_spec.2.2.1
      { citations := [{ generatedResponsePart_citations :=
          [{ retrievedReferences := [{ s3uri := some "s3://kb/b.txt".toList,
                                       contentText := some "frag2".toList }] }] }],
        retrievedReferences := some [] } (by decide)]
    decide

-- ---------------------------------------------------------------------------
-- vision-recognize: multipart/form-data decoder
-- (attraction-scanner.py lines 191-244)
-- ---------------------------------------------------------------------------

/-- Python `bytes` are modelled as lists of byte values. -/
abbrev Bytes := List Nat

deriving instance DecidableEq for Except

/-- Whitespace bytes stripped by `bytes.strip()`. -/
def wsByte (b : Nat) : Bool :=
  b == 32 || b == 9 || b == 10 || b == 13 || b == 11 || b == 12

/-- Model of `bytes.strip()`. -/
def pyStripBytes (l : Bytes) : Bytes :=
  ((l.dropWhile wsByte).reverse.dropWhile wsByte).reverse

/-- ASCII-range model of `bytes.decode("utf-8", "ignore")`: bytes below 128
decode to their character, other bytes are dropped.  Every byte sequence
actually decoded by the claims is pure ASCII. -/
def decodeU8 (bs : Bytes) : Str :=
  bs.filterMap (fun b => if b < 128 then some (Char.ofNat b) else none)

/-- ASCII-range model of `str.encode()`. -/
def encodeAscii (s : Str) : Bytes := s.map Char.toNat

/-- Membership of a contiguous sub-sequence (models Python `in` on
strings/bytes and the presence of a regex literal). -/
def subOccurs {α : Type} [DecidableEq α] (pat l : List α) : Bool :=
  (findSubAux pat l).isSome

/-- Generic association-list dictionary update – last write wins, insertion
order preserved (models Python `dict` assignment). -/
def adictSet {β : Type} (d : List (Str × β)) (k : Str) (v : β) : List (Str × β) :=
  if d.any (fun kv => kv.1 = k) then
    d.map (fun kv => if kv.1 = k then (k, v) else kv)
  else d ++ [(k, v)]

/-- Generic association-list dictionary lookup (models `dict.get`). -/
def adictGet {β : Type} (d : List (Str × β)) (k : Str) : Option β :=
  (d.find? (fun kv => kv.1 = k)).map (·.2)

/-- Model of the boundary regex `boundary="?([^";]+)"?` (IGNORECASE) applied
by `re.search`: scan left to right; at a position matching `boundary=`,
consume an optional quote and take the maximal nonempty run of characters
that are neither `"` nor `;`; on failure resume at the next position. -/
def boundarySearch : Str → Option Str
  | [] => none
  | l@(_ :: rest) =>
    if isPreCI "boundary=".toList l then
      let after := l.drop 9
      let after2 := match after with
        | '"' :: r => r
        | _ => after
      let tok := after2.takeWhile (fun c => ¬ (c = '"' ∨ c = ';'))
      if tok = [] then boundarySearch rest else some tok
    else boundarySearch rest

/-- The part after the first colon of a header line
(models `line.split(":", 1)[1]`; every caller has checked the colon exists). -/
def afterColon : Str → Str
  | [] => []
  | c :: rest => if c = ':' then rest else afterColon rest

/-- The header scan of `parse_multipart`'s inner loop: remembers the last
`Content-Disposition` line verbatim and the last `Content-Type` value,
stripped and encoded. -/
def scanHeaders (lines : List Str) : Option Str × Option Bytes :=
  lines.foldl (fun acc line =>
    if isPre "content-disposition:".toList (asciiLower line) then (some line, acc.2)
    else if isPre "content-type:".toList (asciiLower line) then
      (acc.1, some (encodeAscii (pyStrip (afterColon line))))
    else acc) (none, none)

/-- Model of the attribute regexes `name="([^"]+)"` and `filename="([^"]+)"`
(IGNORECASE): scan for the literal key, then a nonempty run of non-quote
characters closed by a quote; on failure resume at the next position. -/
def attrSearch (key : Str) : Str → Option Str
  | [] => none
  | l@(_ :: rest) =>
    if isPreCI key l then
      let v := (l.drop key.length).takeWhile (fun c => c ≠ '"')
      if v ≠ [] ∧ isPre ['"'] ((l.drop key.length).drop v.length) then some v
      else attrSearch key rest
    else attrSearch key rest

/-- A recognized file part: filename, declared content type (raw bytes) and
raw content. -/
structure MPFile where
  filename : Str
  content_type : Bytes
  content : Bytes
deriving DecidableEq

/-- A value of the result dict of `parse_multipart`: either a decoded text
field or the file part (stored under key "file"). -/
inductive MPVal where
  | text (s : Str)
  | file (f : MPFile)
deriving DecidableEq

/-- The result dict of `parse_multipart`. -/
abbrev MPOut := List (Str × MPVal)

/-- The byte sequence `\r\n\r\n` separating headers from data. -/
def crlfcrlf : Bytes := [13, 10, 13, 10]

/-- The body of `parse_multipart`'s `for ch in chunks` loop. -/
def processChunk (end_delimiter : Bytes) (out : MPOut) (ch0 : Bytes) : MPOut :=
  if pyStripBytes ch0 = [] ∨ pyStripBytes ch0 = [45, 45]
      ∨ pyStripBytes ch0 = end_delimiter then out
  else
    match findSubAux crlfcrlf (pyStripBytes ch0) with
    | none => out
    | some h_end =>
      match scanHeaders (pySplit (decodeU8 ((pyStripBytes ch0).take h_end)) "\r\n".toList) with
      | (none, _) => out
      | (some disp, ctype) =>
        match attrSearch "name=\"".toList disp with
        | none => out
        | some nm =>
          match attrSearch "filename=\"".toList disp with
          | some fn =>
            adictSet out "file".toList (.file
              { filename := fn,
                content_type := ctype.getD (encodeAscii "application/octet-stream".toList),
                content := rstripSet (fun b => b == 13 || b == 10)
                  ((pyStripBytes ch0).drop (h_end + 4)) })
          | none =>
            adictSet out nm (.text (decodeU8 (rstripSet (fun b => b == 13 || b == 10)
              ((pyStripBytes ch0).drop (h_end + 4)))))

/-- Model of `parse_multipart(body, content_type)`; `ValueError` is
`Except.error`. -/
def parse_multipart (body : Bytes) (content_type : Str) : Except Str MPOut :=
  match boundarySearch content_type with
  | none => .error "boundary not found".toList
  | some b =>
    .ok ((pySplit body ([45, 45] ++ encodeAscii b)).foldl
      (processChunk ([45, 45] ++ encodeAscii b ++ [45, 45])) [])

-- ---------------------------------------------------------------------------
-- vision-recognize: the handler's request-envelope stage
-- (attraction-scanner.py lines 24-52 and 91-92)
-- ---------------------------------------------------------------------------

/-- The request event as seen by the vision handler; `body` holds the bytes
produced by `base64.b64decode(event["body"])` (the base64 transport decode
itself is outside the embedding). -/
structure VEvent where
  headers : List (Str × Str)
  isBase64Encoded : Bool
  body : Bytes

/-- Projection of the vision-path HTTP response to status code and the
`message` payload field. -/
structure VResp where
  statusCode : Nat
  message : Option Str
deriving DecidableEq

/-- The lower-cased header dict `{(k or "").lower(): v ...}`. -/
def lowerHeaders (hs : List (Str × Str)) : List (Str × Str) :=
  hs.foldl (fun d kv => adictSet d (asciiLower kv.1) kv.2) []

/-- Model of `headers.get("content-type") or headers.get("Content-Type")`
with Python `or` treating `None` and the empty string as falsy. -/
def headerContentType (ev : VEvent) : Option Str :=
  match adictGet (lowerHeaders ev.headers) "content-type".toList with
  | some v =>
    if v = [] then adictGet (lowerHeaders ev.headers) "Content-Type".toList else some v
  | none => adictGet (lowerHeaders ev.headers) "Content-Type".toList

/-- Model of the vision `lambda_handler` up to and including the
`parse_multipart` call: `.error r` is an early `_resp` return (including the
line 91-92 catch-all that turns any raised exception into a 500), `.ok`
carries the parsed fields for the rest of the handler.  The source tests
`if not content_type or "multipart/form-data" not in content_type`; since a
nonempty pattern never occurs in an empty string, this is the single
`subOccurs` test below. -/
def vision_handler_front (ev : VEvent) : Except VResp MPOut :=
  if ev.isBase64Encoded then
    match headerContentType ev with
    | none => .error ⟨400, some "Expected multipart/form-data".toList⟩
    | some ct =>
      if subOccurs "multipart/form-data".toList ct then
        match parse_multipart ev.body ct with
        | .error _ => .error ⟨500, some "Internal error".toList⟩
        | .ok fields => .ok fields
      else .error ⟨400, some "Expected multipart/form-data".toList⟩
  else .error ⟨400, some "Body must be base64".toList⟩

-- ---------------------------------------------------------------------------
-- Claim C3: missing boundary token
-- ---------------------------------------------------------------------------

/-- C3 counterexample: a base64-declared multipart request whose
content-type carries no boundary token makes the vision handler return a
500 "Internal error" response (the decoder's ValueError reaches the
catch-all), not a 4xx MalformedRequest. -/
theorem C3_missing_boundary_returns_500 :
    vision_handler_front
        { headers := [("Content-Type".toList, "multipart/form-data".toList)],
          isBase64Encoded := true, body := [] }
      = .error ⟨500, some "Internal error".toList⟩ := by
  decide

/-- C3 (amended): for every base64-declared request whose content-type
header is present, contains "multipart/form-data" and has no boundary
token, the vision handler returns a 500-class internal-error response (the
decoder raises ValueError, which only the generic catch-all intercepts). -/
theorem C3_missing_boundary_spec :
    ∀ (ev : VEvent) (ct : Str),
      ev.isBase64Encoded = true →
      headerContentType ev = some ct →
      subOccurs "multipart/form-data".toList ct = true →
      boundarySearch ct = none →
      vision_handler_front ev = .error ⟨500, some "Internal error".toList⟩ := by
  intro ev ct hb hct hsub hbnd
  unfold vision_handler_front
  simp only [hb, if_true, hct]
  simp only [hsub, if_true]
  unfold parse_multipart
  simp only [hbnd]

/-- C3 witness: `C3_missing_boundary_spec` at the concrete boundary-free
request of the counterexample shape but with a nonempty body. -/
theorem C3_missing_boundary_spec_witness :
    vision_handler_front
        { headers := [("content-type".toList, "multipart/form-data; charset=utf-8".toList)],
          isBase64Encoded := true, body := [45, 45] }
      = .error ⟨500, some "Internal error".toList⟩ :=
  C3_missing_boundary_spec
    { headers := [("content-type".toList, "multipart/form-data; charset=utf-8".toList)],
      isBase64Encoded := true, body := [45, 45] }
    "multipart/form-data; charset=utf-8".toList
    rfl (by decide) (by decide) (by decide)

-- ---------------------------------------------------------------------------
-- vision-recognize: classification post-processing
-- (attraction-scanner.py lines 134-189) and detection handling (lines 57-89)
-- ---------------------------------------------------------------------------

/-- Characters allowed inside the second regex group `[0-9.]+`. -/
def digitDot (c : Char) : Bool := c = '.' ∨ ('0' ≤ c ∧ c ≤ '9')

/-- Characters matched by `[^{}]`. -/
def nonBrace (c : Char) : Bool := ¬ (c = '{' ∨ c = '}')

/-- Greedy backtracking over the length of a `[^{}]*` group: try the longest
candidate first, then shorter ones. -/
def searchDesc {α : Type} (f : Nat → Option α) : Nat → Option α
  | 0 => f 0
  | n + 1 =>
    match f (n + 1) with
    | some r => some r
    | none => searchDesc f n

/-- Natural number denoted by a digit string. -/
def natOfDigits (s : Str) : Nat :=
  s.foldl (fun acc c => acc * 10 + (c.toNat - '0'.toNat)) 0

/-- Model of Python `float()` restricted to the alphabet `[0-9.]+` produced
by the confidence group of the classifier regex; `none` models the
ValueError raised on inputs such as "." or "1.2.3". -/
def pyFloat (s : Str) : Option ℚ :=
  if s = [] ∨ ¬ s.all digitDot then none
  else
    match pySplit s ['.'] with
    | [ip] => some (natOfDigits ip)
    | [ip, fp] =>
      if ip = [] ∧ fp = [] then none
      else some ((natOfDigits ip : ℚ) + (natOfDigits fp : ℚ) / (10 ^ fp.length))
    | _ => none

/-- The tail of the classifier regex after the literal `"confidence"`:
`\s*:\s*([0-9.]+)[^{}]*\}`; returns the matched confidence group. -/
def matchConfTail (l : Str) : Option Str :=
  match l.dropWhile wsChar with
  | ':' :: r1 =>
    let r2 := r1.dropWhile wsChar
    let d := r2.takeWhile digitDot
    if d = [] then none
    else
      match (r2.drop d.length).dropWhile nonBrace with
      | '}' :: _ => some d
      | _ => none
  | _ => none

/-- The classifier regex from the position right after a candidate `[^{}]*`
gap: `"id"\s*:\s*"([^"]+)"[^{}]*"confidence"` followed by `matchConfTail`;
returns the two matched groups. -/
def matchIdTail (l : Str) : Option (Str × Str) :=
  if isPre "\"id\"".toList l then
    match (l.drop 4).dropWhile wsChar with
    | ':' :: r1 =>
      match r1.dropWhile wsChar with
      | '"' :: r2 =>
        let b := r2.takeWhile (fun c => c ≠ '"')
        if b = [] then none
        else
          match r2.drop b.length with
          | '"' :: r3 =>
            searchDesc (fun cLen =>
              if isPre "\"confidence\"".toList (r3.drop cLen) then
                (matchConfTail (r3.drop (cLen + 12))).map (fun d => (b, d))
              else none) (countLeading nonBrace r3)
          | _ => none
      | _ => none
    | _ => none
  else none

/-- `re.search` for the classifier pattern
`\{[^{}]*"id"\s*:\s*"([^"]+)"[^{}]*"confidence"\s*:\s*([0-9.]+)[^{}]*\}`:
scan for a `{`, try the greedy `[^{}]*` gap lengths descending, move on when
no completion exists. -/
def llamaSearch : Str → Option (Str × Str)
  | [] => none
  | c :: rest =>
    if c = '{' then
      match searchDesc (fun aLen => matchIdTail (rest.drop aLen))
          (countLeading nonBrace rest) with
      | some g => some g
      | none => llamaSearch rest
    else llamaSearch rest

/-- Model of attraction-scanner lines 177-188: the "none" sentinel, the exact
(set-membership) match, then the substring-containment fallback over the id
set.  CPython iterates `known_ids` (a `set`) in hash order, which is not the
catalog order; the enumeration actually used is passed as `iter`. -/
def resolve_catalog_id (iter : List Str) (det_id : Str) : Option Str :=
  if asciiLower det_id = "none".toList then none
  else if iter.any (fun kid => kid = det_id) then some det_id
  else
    match iter.find? (fun kid => subOccurs kid (asciiLower det_id)) with
    | some kid => some kid
    | none => none

/-- A detection as produced by `classify_with_llama`. -/
structure Detection where
  id : Str
  confidence : ℚ
deriving DecidableEq

/-- Model of `classify_with_llama` from the model's free-text response on:
the empty-catalog early return, the tolerant pattern match, `float()` of the
confidence group (a ValueError propagates to the handler's `except`, which
sets `det = None`, observationally `none` here), the sentinel and the
id resolution. -/
def classify_with_llama_post (landmarks : List Landmark) (iter : List Str)
    (text_out : Str) : Option Detection :=
  if landmarks = [] then none
  else
    match llamaSearch text_out with
    | none => none
    | some (g1, g2) =>
      match pyFloat g2 with
      | none => none
      | some conf =>
        match resolve_catalog_id iter (pyStrip g1) with
        | some i => some ⟨i, conf⟩
        | none => none

/-- Model of `round(q, 2)` over ℚ: round half to even at two decimals. -/
def pyRound2 (q : ℚ) : ℚ :=
  ((if q * 100 - ⌊q * 100⌋ > 1/2 then ⌊q * 100⌋ + 1
    else if q * 100 - ⌊q * 100⌋ < 1/2 then ⌊q * 100⌋
    else if 2 ∣ ⌊q * 100⌋ then ⌊q * 100⌋ else ⌊q * 100⌋ + 1 : ℤ) : ℚ) / 100

/-- Model of `msg_no_object(lang)`. -/
def msg_no_object (lang : Str) : Str :=
  if lang = "ru".toList then "Не удалось распознать достопримечательность.".toList
  else if lang = "kk".toList then "Нысанды тану мүмкін болмады.".toList
  else if lang = "en".toList then "Could not recognize the landmark.".toList
  else "Не удалось распознать достопримечательность.".toList

/-- Model of `msg_try_closer(lang)`. -/
def msg_try_closer (lang : Str) : Str :=
  if lang = "ru".toList then "Попробуйте сфотографировать ближе.".toList
  else if lang = "kk".toList then "Жақынырақ түсіріп көріңіз.".toList
  else if lang = "en".toList then "Try taking a closer photo.".toList
  else "Попробуйте сфотографировать ближе.".toList

/-- Model of `msg_success(name, lang, persona)` (persona is unused by the
source body). -/
def msg_success (name lang _persona : Str) : Str :=
  if lang = "kk".toList then
    "Супер! Бұл ".toList ++ name ++ " – квест тапсырмасы орындалды!".toList
  else if lang = "en".toList then
    "Great! That’s ".toList ++ name ++ " — quest checkpoint completed!".toList
  else "Супер! Это ".toList ++ name ++ " — квест засчитан!".toList

/-- One entry of the response's `detections` array. -/
structure DetOut where
  name : Str
  id : Str
  confidence : ℚ
deriving DecidableEq

/-- The `detections`/`answer` part of a 200 vision response. -/
structure VisionAnswer where
  detections : List DetOut
  answer : Str
deriving DecidableEq

/-- Model of the vision handler's detection handling (lines 69-89): absent
detection, low-confidence gate at 0.7, and the success branch; confidence is
passed through `round(·, 2)` unclamped. -/
def detection_stage (catalog : List Landmark) (lang persona : Str)
    (det : Option Detection) : VisionAnswer :=
  match det with
  | none => ⟨[], msg_no_object lang⟩
  | some d =>
    if d.confidence < 7/10 then
      ⟨[⟨localized_name catalog d.id lang, d.id, pyRound2 d.confidence⟩],
        msg_try_closer lang⟩
    else
      ⟨[⟨localized_name catalog d.id lang, d.id, pyRound2 d.confidence⟩],
        msg_success (localized_name catalog d.id lang) lang persona⟩

/-- Helper: `find?` returns the unique element satisfying the predicate,
whatever the list order. -/
theorem find_of_unique {α : Type} {p : α → Bool} {k : α} :
    ∀ {l : List α}, k ∈ l → p k = true → (∀ x ∈ l, p x = true → x = k) →
      l.find? p = some k := by
  intro l
  induction l with
  | nil => intro h; exact absurd h (List.not_mem_nil k)
  | cons a t ih =>
    intro hk hpk huniq
    by_cases ha : p a = true
    · have : a = k := huniq a (List.mem_cons_self a t) ha
      rw [List.find?_cons_of_pos _ ha, this]
    · have hk' : k ∈ t := by
        rcases List.mem_cons.mp hk with h | h
        · exact absurd (h ▸ hpk) ha
        · exact h
      rw [List.find?_cons_of_neg _ (by simpa using ha)]
      exact ih hk' hpk (fun x hx => huniq x (List.mem_cons_of_mem a hx))

-- ---------------------------------------------------------------------------
-- Claim C5: id resolution order
-- ---------------------------------------------------------------------------

/-- C5 counterexample: with catalog order [tower, bayterek] the id set
{"tower", "bayterek"} may be iterated as ["bayterek", "tower"] (CPython
iterates sets in hash order); on the guess "Bayterek tower!" (which contains
both ids) the code then resolves to "bayterek", while the claim's
catalog-iteration-order rule demands the first catalog id, "tower". -/
theorem C5_set_order_counterexample :
    (["bayterek".toList, "tower".toList] : List Str).Perm
      (([⟨[("id".toList, "tower".toList)]⟩,
         ⟨[("id".toList, "bayterek".toList)]⟩] : List Landmark).filterMap
        (fun lm => lmGet lm "id".toList))
    ∧ (["bayterek".toList, "tower".toList] : List Str).Nodup
    ∧ resolve_catalog_id ["bayterek".toList, "tower".toList] "Bayterek tower!".toList
        = some "bayterek".toList
    ∧ (["tower".toList, "bayterek".toList].find?
        (fun kid => subOccurs kid (asciiLower "Bayterek tower!".toList)))
        = some "tower".toList
    ∧ "bayterek".toList ≠ "tower".toList := by
  refine ⟨by decide, by decide, by decide, by decide, by decide⟩

/-- C5 (amended): resolution checks the "none" sentinel, then a
case-sensitive exact match against the catalog id set, then lower-cases the
guess and returns the first id in the set's iteration order that is
contained in it as a substring; the iteration order is the hash order of the
set, not the catalog order, so the fallback result is only determined when a
single catalog id matches (as in resolve("Bayterek_TOWER!!") = "bayterek");
a guess case-insensitively equal to "none" resolves to no match regardless
of the catalog, and every resolved id belongs to the id set. -/
theorem C5_resolution_spec :
    (∀ (iter : List Str) (g : Str),
        asciiLower g = "none".toList → resolve_catalog_id iter g = none)
    ∧ (∀ (iter : List Str) (g : Str),
        asciiLower g ≠ "none".toList → g ∈ iter → resolve_catalog_id iter g = some g)
    ∧ (∀ (iter : List Str) (g k : Str),
        asciiLower g ≠ "none".toList → g ∉ iter →
        k ∈ iter → subOccurs k (asciiLower g) = true →
        (∀ k2 ∈ iter, subOccurs k2 (asciiLower g) = true → k2 = k) →
        resolve_catalog_id iter g = some k)
    ∧ (∀ (iter : List Str) (g : Str),
        asciiLower g ≠ "none".toList → g ∉ iter →
        (∀ k ∈ iter, subOccurs k (asciiLower g) = false) →
        resolve_catalog_id iter g = none)
    ∧ (∀ (iter : List Str) (g k : Str),
        resolve_catalog_id iter g = some k → k ∈ iter) := by
  refine ⟨?_, ?_, ?_, ?_, ?_⟩
  · intro iter g h
    unfold resolve_catalog_id
    rw [if_pos h]
  · intro iter g h hm
    unfold resolve_catalog_id
    rw [if_neg h, if_pos (List.any_eq_true.mpr ⟨g, hm, by simp⟩)]
  · intro iter g k h hnm hk hsub huniq
    unfold resolve_catalog_id
    rw [if_neg h, if_neg (fun hany => by
      rcases List.any_eq_true.mp hany with ⟨x, hx, he⟩
      exact hnm ((of_decide_eq_true he) ▸ hx))]
    rw [find_of_unique hk hsub huniq]
  · intro iter g h hnm hall
    unfold resolve_catalog_id
    rw [if_neg h, if_neg (fun hany => by
      rcases List.any_eq_true.mp hany with ⟨x, hx, he⟩
      exact hnm ((of_decide_eq_true he) ▸ hx))]
    rw [List.find?_eq_none.mpr (fun x hx => by simp [hall x hx])]
  · intro iter g k hres
    unfold resolve_catalog_id at hres
    split at hres
    · exact absurd hres (by simp)
    · split at hres
      · rename_i hany
        rcases List.any_eq_true.mp hany with ⟨x, hx, he⟩
        exact (Option.some_injective _ hres) ▸ (of_decide_eq_true he) ▸ hx
      · split at hres
        · rename_i kid hfind
          have := List.mem_of_find?_eq_some hfind
          rwa [Option.some_injective _ hres] at this
        · exact absurd hres (by simp)

/-- C5 witness: the substring-containment clause of `C5_resolution_spec` at
the claim's own example, resolve("Bayterek_TOWER!!", [bayterek]). -/
theorem C5_resolution_spec_witness :
    resolve_catalog_id ["bayterek".toList] "Bayterek_TOWER!!".toList
      = some "bayterek".toList :=
  C5_resolution_spec.2.2.1 ["bayterek".toList] "Bayterek_TOWER!!".toList
    "bayterek".toList (by decide) (by decide) (by decide) (by decide)
    (by intro k2 hk2 _; simpa using hk2)

-- ---------------------------------------------------------------------------
-- Claim C9: confidence range
-- ---------------------------------------------------------------------------

/-- Helper: evaluating `classify_with_llama_post` from the values of its
three stages. -/
theorem classify_post_eq (landmarks : List Landmark) (iter : List Str)
    (text g1 g2 : Str) (conf : ℚ) (i : Str)
    (hne : landmarks ≠ []) (hsearch : llamaSearch text = some (g1, g2))
    (hfloat : pyFloat g2 = some conf)
    (hres : resolve_catalog_id iter (pyStrip g1) = some i) :
    classify_with_llama_post landmarks iter text = some ⟨i, conf⟩ := by
  unfold classify_with_llama_post
  rw [if_neg hne, hsearch]
  show ((match pyFloat g2 with
    | none => none
    | some conf =>
      match resolve_catalog_id iter (pyStrip g1) with
      | some i => some ⟨i, conf⟩
      | none => none : Option Detection)) = some ⟨i, conf⟩
  rw [hfloat]
  show ((match resolve_catalog_id iter (pyStrip g1) with
    | some i => some ⟨i, conf⟩
    | none => none : Option Detection)) = some ⟨i, conf⟩
  rw [hres]

/-- Helper: evaluating `pyFloat` on a digits-dot-digits string. -/
theorem pyFloat_eq (s ip fp : Str) (q : ℚ)
    (h1 : ¬ (s = [] ∨ ¬ s.all digitDot = true))
    (h2 : pySplit s ['.'] = [ip, fp])
    (h3 : ¬ (ip = [] ∧ fp = []))
    (h4 : (natOfDigits ip : ℚ) + (natOfDigits fp : ℚ) / (10 ^ fp.length) = q) :
    pyFloat s = some q := by
  unfold pyFloat
  rw [if_neg h1, h2]
  show (if ip = [] ∧ fp = [] then none
    else some ((natOfDigits ip : ℚ) + (natOfDigits fp : ℚ) / (10 ^ fp.length)))
    = some q
  rw [if_neg h3, h4]

/-- Helper: `pyFloat "5.0" = 5`. -/
theorem pyFloat_five : pyFloat "5.0".toList = some 5 := by
  refine pyFloat_eq _ ['5'] ['0'] 5 (by decide) (by decide) (by decide) ?_
  rw [show natOfDigits ['5'] = 5 from by decide, show natOfDigits ['0'] = 0 from by decide]
  norm_num

/-- Helper: `pyFloat "0.85" = 85/100`. -/
theorem pyFloat_085 : pyFloat "0.85".toList = some (85/100) := by
  refine pyFloat_eq _ ['0'] ['8', '5'] (85/100) (by decide) (by decide) (by decide) ?_
  rw [show natOfDigits ['0'] = 0 from by decide, show natOfDigits ['8', '5'] = 85 from by decide]
  norm_num

/-- Helper: the success branch of the detection handling. -/
theorem detection_stage_success (catalog : List Landmark) (lang persona : Str)
    (d : Detection) (h : ¬ d.confidence < 7/10) :
    detection_stage catalog lang persona (some d)
      = ⟨[⟨localized_name catalog d.id lang, d.id, pyRound2 d.confidence⟩],
          msg_success (localized_name catalog d.id lang) lang persona⟩ := by
  show (if d.confidence < 7/10 then
      (⟨[⟨localized_name catalog d.id lang, d.id, pyRound2 d.confidence⟩],
        msg_try_closer lang⟩ : VisionAnswer)
    else
      ⟨[⟨localized_name catalog d.id lang, d.id, pyRound2 d.confidence⟩],
        msg_success (localized_name catalog d.id lang) lang persona⟩)
    = ⟨[⟨localized_name catalog d.id lang, d.id, pyRound2 d.confidence⟩],
        msg_success (localized_name catalog d.id lang) lang persona⟩
  rw [if_neg h]

/-- Helper: `round(5.0, 2) = 5`. -/
theorem pyRound2_five : pyRound2 5 = 5 := by
  unfold pyRound2
  rw [show (5 : ℚ) * 100 = ((500 : ℤ) : ℚ) from by norm_num, Int.floor_intCast]
  norm_num

/-- C9 counterexample: the model response
`{"id":"bayterek","confidence":5.0}` is accepted by the tolerant pattern
match, the produced detection carries confidence 5 > 1, and the handler's
confidence handling forwards 5 (rounded) into the success response, so the
detection confidence is not in [0,1]. -/
theorem C9_confidence_above_one :
    classify_with_llama_post [⟨[("id".toList, "bayterek".toList)]⟩]
        ["bayterek".toList]
        "Answer: \x7b\"id\":\"bayterek\",\"confidence\":5.0\x7d ok".toList
      = some ⟨"bayterek".toList, 5⟩
    ∧ ¬ ((5 : ℚ) ≤ 1)
    ∧ detection_stage [⟨[("id".toList, "bayterek".toList)]⟩] "en".toList
        "formal".toList (some ⟨"bayterek".toList, 5⟩)
      = ⟨[⟨"bayterek".toList, "bayterek".toList, 5⟩],
         msg_success "bayterek".toList "en".toList "formal".toList⟩ := by
  refine ⟨?_, by norm_num, ?_⟩
  · exact classify_post_eq _ _ _ "bayterek".toList "5.0".toList 5 "bayterek".toList
      (by decide) (by decide) pyFloat_five (by decide)
  · rw [detection_stage_success _ _ _ _ (by norm_num)]
    rw [show localized_name [⟨[("id".toList, "bayterek".toList)]⟩]
        (⟨"bayterek".toList, (5 : ℚ)⟩ : Detection).id "en".toList = "bayterek".toList
      from by decide]
    rw [show (⟨"bayterek".toList, (5 : ℚ)⟩ : Detection).confidence = 5 from rfl,
        pyRound2_five]

/-- C9 (amended): every detection produced by the classification path has a
nonnegative confidence (the regex group `[0-9.]+` cannot denote a negative
number), but the value is not clamped to 1: it is in [0,1] exactly when the
matched numeral is at most 1. -/
theorem C9_confidence_nonneg_spec :
    ∀ (landmarks : List Landmark) (iter : List Str) (text : Str) (d : Detection),
      classify_with_llama_post landmarks iter text = some d → 0 ≤ d.confidence := by
  have hfloat : ∀ (s : Str) (q : ℚ), pyFloat s = some q → 0 ≤ q := by
    intro s q h
    unfold pyFloat at h
    split at h
    · exact absurd h (by simp)
    · split at h
      · have : q = ((natOfDigits _ : ℕ) : ℚ) := (Option.some_injective _ h).symm
        rw [this]
        positivity
      · split at h
        · exact absurd h (by simp)
        · have : q = ((natOfDigits _ : ℕ) : ℚ) + ((natOfDigits _ : ℕ) : ℚ) / (10 ^ _) :=
            (Option.some_injective _ h).symm
          rw [this]
          positivity
      · exact absurd h (by simp)
  intro landmarks iter text d h
  unfold classify_with_llama_post at h
  split at h
  · exact absurd h (by simp)
  · split at h
    · exact absurd h (by simp)
    · split at h
      · exact absurd h (by simp)
      · rename_i conf hconf
        split at h
        · have hd : d = ⟨_, conf⟩ := (Option.some_injective _ h).symm
          rw [hd]
          exact hfloat _ conf hconf
        · exact absurd h (by simp)

/-- C9 witness: `C9_confidence_nonneg_spec` at a concrete accepted response
with confidence 0.85. -/
theorem C9_confidence_nonneg_spec_witness :
    (0 : ℚ) ≤ ((⟨"bayterek".toList, 85/100⟩ : Detection)).confidence :=
  C9_confidence_nonneg_spec [⟨[("id".toList, "bayterek".toList)]⟩]
    ["bayterek".toList]
    "\x7b\"id\":\"bayterek\",\"confidence\":0.85\x7d".toList
    ⟨"bayterek".toList, 85/100⟩
    (classify_post_eq _ _ _ "bayterek".toList "0.85".toList (85/100) "bayterek".toList
      (by decide) (by decide) pyFloat_085 (by decide))

-- ---------------------------------------------------------------------------
-- ai-guide: the sanitization pipeline (lambda_function.py lines 96-139)
-- ---------------------------------------------------------------------------

/-- The literal alternatives of `NOISE_RE`
(`</?SYS>|</?INST>|\[/?SYS]|\[/INST]`, IGNORECASE), lower-cased. -/
def noiseTokens : List Str :=
  ["</sys>".toList, "<sys>".toList, "</inst>".toList, "<inst>".toList,
   "[sys]".toList, "[/sys]".toList, "[/inst]".toList]

/-- Length of the noise token matching at the head of `l`, if any (the
tokens are pairwise prefix-free, so the alternation order is irrelevant). -/
def noiseTokenAt (l : Str) : Option Nat :=
  (noiseTokens.find? (fun t => isPre t (asciiLower l))).map (·.length)

/-- Fuelled worker for `noiseSub`; fuel is the input length (each step
consumes at least one character). -/
def noiseSubAux : Nat → Str → Str
  | 0, l => l
  | _ + 1, [] => []
  | f + 1, l@(c :: rest) =>
    match noiseTokenAt l with
    | some n => noiseSubAux f (l.drop n)
    | none => c :: noiseSubAux f rest

/-- Model of `NOISE_RE.sub("", ·)`. -/
def noiseSub (l : Str) : Str := noiseSubAux l.length l

/-- Fuelled worker for `htmlSub`: `HTML_TAG_RE = </?[^>]+>` matches, at a
`<`, up to the next `>` provided at least one character lies between. -/
def htmlSubAux : Nat → Str → Str
  | 0, l => l
  | _ + 1, [] => []
  | f + 1, c :: rest =>
    if c = '<' then
      match rest.findIdx? (fun x => x = '>') with
      | some i => if 1 ≤ i then htmlSubAux f (rest.drop (i + 1)) else c :: htmlSubAux f rest
      | none => c :: htmlSubAux f rest
    else c :: htmlSubAux f rest

/-- Model of `HTML_TAG_RE.sub("", ·)`. -/
def htmlSub (l : Str) : Str := htmlSubAux l.length l

/-- Model of `_clean_noise(text)`. -/
def clean_noise (l : Str) : Str :=
  if l = [] then l else pyStrip (htmlSub (noiseSub l))

/-- The fallback of `_extract_out`: everything before a lone `</out>`, else
the whole text, stripped. -/
def fallbackClose (t : Str) : Str :=
  match findCI "</out>".toList t with
  | some e => pyStrip (t.take e)
  | none => pyStrip t

/-- Model of `_extract_out(text)`: `OUT_TAG_RE = <out>(.*?)</out>`
(DOTALL, IGNORECASE) searched leftmost — the content between the first
`<out>` that is followed by a `</out>` and the nearest such `</out>` —
else the text before a lone closing tag, else the whole text. -/
def extract_out (t : Str) : Str :=
  if t = [] then []
  else
    match findCI "<out>".toList t with
    | some p =>
      match findCI "</out>".toList (t.drop (p + 5)) with
      | some q => pyStrip ((t.drop (p + 5)).take q)
      | none => fallbackClose t
    | none => fallbackClose t

/-- Does `\s*:` match here? -/
def colonAfter (r : Str) : Bool :=
  match r.dropWhile wsChar with
  | ':' :: _ => true
  | _ => false

/-- Does `output\s*:` or `note\s*:` (IGNORECASE) match here? -/
def keywordColon (m : Str) : Bool :=
  (isPreCI "output".toList m && colonAfter (m.drop 6)) ||
  (isPreCI "note".toList m && colonAfter (m.drop 4))

/-- Does one of the `DANGEROUS_SECTIONS_RE` marker alternatives
(`</out>`, `\*{0,2}\s*output\s*:`, `\*{0,2}\s*note\s*:`, `output\s*:`,
`note\s*:`) match at this position?  The plain keyword alternatives are
instances of the starred ones with zero stars; a run of three or more stars
defeats every alternative. -/
def markerAt (m : Str) : Bool :=
  isPreCI "</out>".toList m ||
  (decide (countLeading (fun c => c = '*') m ≤ 2) &&
   keywordColon ((m.drop (countLeading (fun c => c = '*') m)).dropWhile wsChar))

/-- Does `\s*(marker)` match right after an anchor?  The greedy `\s*` may
stop anywhere in the whitespace run, but every marker starts with a
non-whitespace character, so only the full run matters. -/
def anchorHit (m : Str) : Bool := markerAt (m.dropWhile wsChar)

/-- Scan for the leftmost `\n` anchor whose tail matches, deleting from the
anchor (inclusive) to the end — `.*$` with DOTALL reaches the end of text. -/
def samAux : Str → Str
  | [] => []
  | c :: rest =>
    if c = '\n' ∧ anchorHit rest then []
    else c :: samAux rest

/-- Model of `_strip_after_markers(text)`: the `(?:^|\n)` anchor is the
start of text or any newline; the leftmost matching anchor wins. -/
def strip_after_markers (l : Str) : Str :=
  pyStrip (if anchorHit l then [] else samAux l)

/-- Length of a `^[ \t]*#{1,6}\s*` match at this line start, if any
(`#{1,6}` takes at most six hashes; the trailing `\s*` is greedy and may
span newlines). -/
def headingMatchLen (l : Str) : Option Nat :=
  if countLeading (fun c => c = '#')
      (l.drop (countLeading (fun c => c = ' ' ∨ c = '\t') l)) = 0 then none
  else
    some (countLeading (fun c => c = ' ' ∨ c = '\t') l
      + min (countLeading (fun c => c = '#')
          (l.drop (countLeading (fun c => c = ' ' ∨ c = '\t') l))) 6
      + countLeading wsChar
          (l.drop (countLeading (fun c => c = ' ' ∨ c = '\t') l
            + min (countLeading (fun c => c = '#')
                (l.drop (countLeading (fun c => c = ' ' ∨ c = '\t') l))) 6)))

/-- Fuelled worker for `headingSub`: MULTILINE `^` matches at position 0 and
after every newline of the original string; matches are non-overlapping. -/
def headingSubAux : Nat → Bool → Str → Str
  | 0, _, l => l
  | _ + 1, _, [] => []
  | f + 1, atStart, l@(c :: rest) =>
    if atStart then
      match headingMatchLen l with
      | some n => headingSubAux f (decide (l.get? (n - 1) = some '\n')) (l.drop n)
      | none => c :: headingSubAux f (decide (c = '\n')) rest
    else c :: headingSubAux f (decide (c = '\n')) rest

/-- Model of `re.sub(r"^[ \t]*#{1,6}\s*", "", t, flags=re.MULTILINE)`. -/
def headingSub (l : Str) : Str := headingSubAux l.length true l

/-- Model of `_strip_markdown_symbols(text)`: the four `str.replace` calls
then the heading substitution. -/
def strip_markdown_symbols (l : Str) : Str :=
  headingSub (pyReplace ['`'] []
    (pyReplace ['*'] [] (pyReplace ['*', '*'] [] (pyReplace ['|'] [' '] l))))

/-- Fuelled worker for `collapseNl`: a maximal run of two or more newlines
after a first newline (three or more in total) collapses to exactly two. -/
def collapseNlAux : Nat → Str → Str
  | 0, l => l
  | _ + 1, [] => []
  | f + 1, c :: rest =>
    if c = '\n' ∧ 1 ≤ countLeading (fun x => x = '\n') rest then
      '\n' :: '\n' :: collapseNlAux f (rest.drop (countLeading (fun x => x = '\n') rest))
    else c :: collapseNlAux f rest

/-- Model of `re.sub(r"\n{3,}", "\n\n", t)` (a maximal run of one or two
newlines is left unchanged, which coincides with emitting two for a run of
exactly two). -/
def collapseNl (l : Str) : Str := collapseNlAux l.length l

/-- Model of `_final_sanitize(text)`: the five-stage pipeline. -/
def final_sanitize (l : Str) : Str :=
  pyStrip (collapseNl (strip_markdown_symbols
    (clean_noise (strip_after_markers (extract_out l)))))

-- Occurrence predicates used to state the sanitizer invariants ------------

/-- Does a noise token occur anywhere? -/
def noiseOccurs : Str → Bool
  | [] => false
  | l@(_ :: rest) => (noiseTokenAt l).isSome || noiseOccurs rest

/-- Does an HTML-like tag occur anywhere? -/
def htmlOccurs : Str → Bool
  | [] => false
  | c :: rest =>
    (decide (c = '<') && (match rest.findIdx? (fun x => x = '>') with
      | some i => decide (1 ≤ i)
      | none => false)) || htmlOccurs rest

/-- Does some `\n` anchor of `DANGEROUS_SECTIONS_RE` match? -/
def dangerousNlOccurs : Str → Bool
  | [] => false
  | c :: rest => (decide (c = '\n') && anchorHit rest) || dangerousNlOccurs rest

/-- Does `DANGEROUS_SECTIONS_RE` match anywhere (either anchor)? -/
def dangerousOccurs (l : Str) : Bool := anchorHit l || dangerousNlOccurs l

/-- Does the heading pattern match at some line start? -/
def headingOccursAux : Bool → Str → Bool
  | _, [] => false
  | atStart, l@(c :: rest) =>
    (atStart && (headingMatchLen l).isSome) || headingOccursAux (decide (c = '\n')) rest

/-- Does the heading pattern match at some line start of the whole text? -/
def headingOccurs (l : Str) : Bool := headingOccursAux true l

/-- Does a run of three consecutive newlines occur? -/
def has3nl : Str → Bool
  | c1 :: c2 :: c3 :: rest =>
    (decide (c1 = '\n') && decide (c2 = '\n') && decide (c3 = '\n'))
      || has3nl (c2 :: c3 :: rest)
  | _ => false

/-- A string on which every sanitizer stage is the identity: no `</out>`
marker, no dangerous-section match, no noise token, no HTML-like tag, none
of the markdown symbols, no heading match, no triple newline, and already
stripped.  This is the precise form of "markup/markers already removed". -/
def CleanOut (y : Str) : Prop :=
  findCI "</out>".toList y = none
  ∧ dangerousOccurs y = false
  ∧ noiseOccurs y = false
  ∧ htmlOccurs y = false
  ∧ '|' ∉ y ∧ '*' ∉ y ∧ '`' ∉ y
  ∧ headingOccurs y = false
  ∧ has3nl y = false
  ∧ pyStrip y = y

instance (y : Str) : Decidable (CleanOut y) := by
  unfold CleanOut
  infer_instance

-- Sanitizer support lemmas ------------------------------------------------

/-- Characters of a `pyReplace` result come from the input or the
replacement. -/
theorem mem_pyReplaceAux {c : Char} (pat repl : Str) :
    ∀ (f : Nat) (l : Str), c ∈ pyReplaceAux pat repl f l → c ∈ l ∨ c ∈ repl := by
  intro f
  induction f with
  | zero => intro l h; exact Or.inl h
  | succ f ih =>
    intro l h
    match l with
    | [] => exact Or.inl h
    | a :: rest =>
      simp only [pyReplaceAux] at h
      split at h
      · rcases List.mem_append.mp h with h | h
        · exact Or.inr h
        · rcases ih _ h with h | h
          · exact Or.inl (List.drop_subset _ _ h)
          · exact Or.inr h
      · rcases List.mem_cons.mp h with h | h
        · exact Or.inl (h ▸ List.mem_cons_self a rest)
        · rcases ih _ h with h | h
          · exact Or.inl (List.mem_cons_of_mem a h)
          · exact Or.inr h

/-- A single-character pattern is fully removed by `pyReplace` when the
replacement avoids it. -/
theorem not_mem_pyReplaceAux_single {a : Char} (repl : Str) (hrepl : a ∉ repl) :
    ∀ (f : Nat) (l : Str), l.length ≤ f → a ∉ pyReplaceAux [a] repl f l := by
  intro f
  induction f with
  | zero =>
    intro l hl
    rw [List.length_eq_zero.mp (Nat.le_zero.mp hl)]
    exact List.not_mem_nil a
  | succ f ih =>
    intro l hl
    match l with
    | [] => exact List.not_mem_nil a
    | c :: rest =>
      simp only [pyReplaceAux]
      split
      · intro h
        rcases List.mem_append.mp h with h | h
        · exact hrepl h
        · exact ih _ (by simpa using Nat.le_of_succ_le_succ hl) h
      · rename_i hpre
        intro h
        rcases List.mem_cons.mp h with h | h
        · exact hpre (by simp [isPre, h.symm])
        · exact ih rest (by simpa using Nat.le_of_succ_le_succ hl) h

/-- `pyReplace` version of `not_mem_pyReplaceAux_single`. -/
theorem not_mem_pyReplace_single {a : Char} (repl l : Str) (hrepl : a ∉ repl) :
    a ∉ pyReplace [a] repl l :=
  not_mem_pyReplaceAux_single repl hrepl l.length l le_rfl

/-- `pyReplace` version of `mem_pyReplaceAux`. -/
theorem mem_pyReplace {c : Char} (pat repl l : Str) (h : c ∈ pyReplace pat repl l) :
    c ∈ l ∨ c ∈ repl :=
  mem_pyReplaceAux pat repl l.length l h

/-- The heading substitution only deletes characters. -/
theorem mem_headingSubAux {c : Char} :
    ∀ (f : Nat) (b : Bool) (l : Str), c ∈ headingSubAux f b l → c ∈ l := by
  intro f
  induction f with
  | zero => intro b l h; exact h
  | succ f ih =>
    intro b l h
    match l with
    | [] => exact h
    | a :: rest =>
      simp only [headingSubAux] at h
      split at h
      · split at h
        · exact List.drop_subset _ _ (ih _ _ h)
        · rcases List.mem_cons.mp h with h | h
          · exact h ▸ List.mem_cons_self a rest
          · exact List.mem_cons_of_mem a (ih _ _ h)
      · rcases List.mem_cons.mp h with h | h
        · exact h ▸ List.mem_cons_self a rest
        · exact List.mem_cons_of_mem a (ih _ _ h)

/-- Newline collapsing introduces no characters except newlines. -/
theorem mem_collapseNlAux {c : Char} :
    ∀ (f : Nat) (l : Str), c ∈ collapseNlAux f l → c ∈ l ∨ c = '\n' := by
  intro f
  induction f with
  | zero => intro l h; exact Or.inl h
  | succ f ih =>
    intro l h
    match l with
    | [] => exact Or.inl h
    | a :: rest =>
      simp only [collapseNlAux] at h
      split at h
      · rcases List.mem_cons.mp h with h | h
        · exact Or.inr h
        · rcases List.mem_cons.mp h with h | h
          · exact Or.inr h
          · rcases ih _ h with h | h
            · exact Or.inl (List.mem_cons_of_mem a (List.drop_subset _ _ h))
            · exact Or.inr h
      · rcases List.mem_cons.mp h with h | h
        · exact Or.inl (h ▸ List.mem_cons_self a rest)
        · rcases ih _ h with h | h
          · exact Or.inl (List.mem_cons_of_mem a h)
          · exact Or.inr h

/-- The result of `pyStrip` is a contiguous infix of the input. -/
theorem pyStrip_sublist (l : Str) : pyStrip l <:+: l := by
  unfold pyStrip
  have h1 : l.dropWhile wsChar <:+ l := List.dropWhile_suffix _
  have h2 : (l.dropWhile wsChar).reverse.dropWhile wsChar <:+ (l.dropWhile wsChar).reverse :=
    List.dropWhile_suffix _
  have h3 : ((l.dropWhile wsChar).reverse.dropWhile wsChar).reverse <+: l.dropWhile wsChar :=
    List.reverse_suffix.mp (by rw [List.reverse_reverse]; exact h2)
  exact h3.isInfix.trans h1.isInfix

/-- Characters survive `pyStrip` only if present in the input. -/
theorem mem_pyStrip {c : Char} (l : Str) (h : c ∈ pyStrip l) : c ∈ l :=
  (pyStrip_sublist l).subset h

/-- `has3nl` detects exactly an infix of three newlines. -/
theorem has3nl_iff_sublist : ∀ l : Str, has3nl l = true ↔ ['\n', '\n', '\n'] <:+: l
  | [] => by
    constructor
    · intro h; simp [has3nl] at h
    · intro h; have := h.length_le; simp at this
  | [c] => by
    constructor
    · intro h; simp [has3nl] at h
    · intro h; have := h.length_le; simp at this
  | [c1, c2] => by
    constructor
    · intro h; simp [has3nl] at h
    · intro h; have := h.length_le; simp at this
  | c1 :: c2 :: c3 :: t => by
    have ih := has3nl_iff_sublist (c2 :: c3 :: t)
    constructor
    · intro h
      rw [has3nl, Bool.or_eq_true, Bool.and_eq_true, Bool.and_eq_true] at h
      rcases h with ⟨⟨h1, h2⟩, h3⟩ | h
      · rw [of_decide_eq_true h1, of_decide_eq_true h2, of_decide_eq_true h3]
        exact ⟨[], t, rfl⟩
      · exact (ih.mp h).trans (List.suffix_cons c1 _).isInfix
    · intro h
      rw [has3nl, Bool.or_eq_true]
      rcases List.infix_cons_iff.mp h with h | h
      · left
        obtain ⟨u, hu⟩ := h
        simp only [List.cons_append, List.nil_append, List.cons.injEq] at hu
        rw [hu.1.symm, hu.2.1.symm, hu.2.2.1.symm]
        simp
      · right
        exact ih.mpr h

/-- Dropping the run counted by `countLeading` is `dropWhile`. -/
theorem drop_countLeading {α : Type} (p : α → Bool) :
    ∀ l : List α, l.drop (countLeading p l) = l.dropWhile p := by
  intro l
  induction l with
  | nil => rfl
  | cons a t ih =>
    cases hp : p a with
    | true => simp [countLeading, List.takeWhile_cons, List.dropWhile_cons, hp, ← ih,
        countLeading]
    | false => simp [countLeading, List.takeWhile_cons, List.dropWhile_cons, hp]

/-- The head of a `dropWhile` result falsifies the predicate. -/
theorem head_dropWhile_not {α : Type} (p : α → Bool) :
    ∀ (l : List α) (x : α), (l.dropWhile p).head? = some x → p x = false := by
  intro l
  induction l with
  | nil => intro x h; simp at h
  | cons a t ih =>
    intro x h
    rw [List.dropWhile_cons] at h
    split at h
    · exact ih x h
    · rename_i hp
      simp only [List.head?_cons, Option.some.injEq] at h
      cases hb : p a with
      | false => exact h ▸ hb
      | true => exact absurd hb hp

/-- `countLeading` on a cons cell. -/
theorem countLeading_cons {α : Type} (p : α → Bool) (a : α) (t : List α) :
    countLeading p (a :: t) = if p a then countLeading p t + 1 else 0 := by
  rw [countLeading, List.takeWhile_cons]
  split <;> simp [countLeading]

/-- Newline collapsing preserves the head. -/
theorem collapseNlAux_head? : ∀ (f : Nat) (l : Str),
    (collapseNlAux f l).head? = l.head? := by
  intro f
  cases f with
  | zero => intro l; rfl
  | succ f =>
    intro l
    match l with
    | [] => rfl
    | c :: rest =>
      simp only [collapseNlAux]
      split
      · rename_i hc
        rw [hc.1]
        rfl
      · rfl

/-- `has3nl` ignores a non-newline head. -/
theorem has3nl_cons_of_ne {c : Char} (h : ¬ c = '\n') :
    ∀ m : Str, has3nl (c :: m) = has3nl m := by
  intro m
  match m with
  | [] => rfl
  | [x] => rfl
  | x :: y :: t =>
    rw [has3nl]
    simp [h, has3nl]

/-- `has3nl` ignores any head when the next character is not a newline. -/
theorem has3nl_cons_of_head_ne {c : Char} :
    ∀ m : Str, (∀ x, m.head? = some x → ¬ x = '\n') → has3nl (c :: m) = has3nl m := by
  intro m hm
  match m with
  | [] => rfl
  | [x] => rfl
  | x :: y :: t =>
    have hx : ¬ x = '\n' := hm x rfl
    rw [has3nl]
    simp [hx]

/-- Two newlines followed by text that neither starts with a newline nor
contains a triple newline stay triple-newline-free. -/
theorem has3nl_two_nl_cons :
    ∀ m : Str, (∀ x, m.head? = some x → ¬ x = '\n') → has3nl m = false →
      has3nl ('\n' :: '\n' :: m) = false := by
  intro m hm h
  match m with
  | [] => rfl
  | x :: t =>
    have hx : ¬ x = '\n' := hm x rfl
    have h2 : has3nl ('\n' :: x :: t) = has3nl (x :: t) :=
      has3nl_cons_of_head_ne (x :: t) (fun z hz => by
        simp only [List.head?_cons, Option.some.injEq] at hz
        exact hz ▸ hx)
    rw [has3nl]
    simp [hx, h2, h]

/-- The output of newline collapsing has no triple newline. -/
theorem has3nl_collapseNlAux : ∀ (f : Nat) (l : Str), l.length ≤ f →
    has3nl (collapseNlAux f l) = false := by
  intro f
  induction f with
  | zero =>
    intro l h
    rw [List.length_eq_zero.mp (Nat.le_zero.mp h)]
    rfl
  | succ f ih =>
    intro l h
    match l with
    | [] => rfl
    | c :: rest =>
      have hrest : rest.length ≤ f := by simpa using Nat.le_of_succ_le_succ h
      simp only [collapseNlAux]
      split
      · apply has3nl_two_nl_cons
        · intro x hx
          rw [collapseNlAux_head?, drop_countLeading] at hx
          have := head_dropWhile_not _ rest x hx
          simpa using this
        · refine ih _ ?_
          calc (rest.drop (countLeading (fun x => x = '\n') rest)).length
              ≤ rest.length := by rw [List.length_drop]; omega
            _ ≤ f := hrest
      · rename_i hc
        by_cases hcn : c = '\n'
        · rw [has3nl_cons_of_head_ne]
          · exact ih rest hrest
          · intro x hx hxn
            rw [collapseNlAux_head?] at hx
            apply hc
            refine ⟨hcn, ?_⟩
            match rest, hx with
            | r0 :: t, hx =>
              simp only [List.head?_cons, Option.some.injEq] at hx
              rw [countLeading_cons]
              rw [if_pos (by simp [hx, hxn])]
              omega
        · rw [has3nl_cons_of_ne hcn]
          exact ih rest hrest

/-- `collapseNl` output has no triple newline. -/
theorem has3nl_collapseNl (l : Str) : has3nl (collapseNl l) = false :=
  has3nl_collapseNlAux l.length l le_rfl

/-- `pyStrip` cannot create a triple newline. -/
theorem has3nl_pyStrip (l : Str) (h : has3nl l = false) :
    has3nl (pyStrip l) = false := by
  cases hb : has3nl (pyStrip l) with
  | false => rfl
  | true =>
    have h2 := ((has3nl_iff_sublist _).mp hb).trans (pyStrip_sublist l)
    rw [(has3nl_iff_sublist l).mpr h2] at h
    exact absurd h (by simp)

/-- The markdown stage removes every vertical bar, asterisk and backtick. -/
theorem strip_markdown_no_symbols (t : Str) :
    '|' ∉ strip_markdown_symbols t ∧ '*' ∉ strip_markdown_symbols t
      ∧ '`' ∉ strip_markdown_symbols t := by
  unfold strip_markdown_symbols
  refine ⟨?_, ?_, ?_⟩
  · intro h
    have h4 := mem_headingSubAux _ _ _ h
    rcases mem_pyReplace _ _ _ h4 with h3 | h3
    · rcases mem_pyReplace _ _ _ h3 with h2 | h2
      · rcases mem_pyReplace _ _ _ h2 with h1 | h1
        · exact not_mem_pyReplace_single [' '] _ (by decide) h1
        · exact absurd h1 (List.not_mem_nil _)
      · exact absurd h2 (List.not_mem_nil _)
    · exact absurd h3 (List.not_mem_nil _)
  · intro h
    have h4 := mem_headingSubAux _ _ _ h
    rcases mem_pyReplace _ _ _ h4 with h3 | h3
    · exact not_mem_pyReplace_single [] _ (List.not_mem_nil _) h3
    · exact absurd h3 (List.not_mem_nil _)
  · intro h
    have h4 := mem_headingSubAux _ _ _ h
    exact not_mem_pyReplace_single [] _ (List.not_mem_nil _) h4

/-- A false disjunction of booleans splits. -/
theorem bor_false {a b : Bool} (h : (a || b) = false) : a = false ∧ b = false := by
  cases a <;> cases b <;> simp_all

/-- A boolean that is false is not true. -/
theorem bfalse {b : Bool} (h : b = false) : ¬ b = true := by simp [h]

/-- `findSubAux` finds nothing iff the pattern prefixes no suffix. -/
theorem findSubAux_none_iff {α : Type} [DecidableEq α] (pat : List α) :
    ∀ l : List α, findSubAux pat l = none ↔ ∀ i, isPre pat (l.drop i) = false := by
  intro l
  induction l with
  | nil =>
    constructor
    · intro h i
      rw [List.drop_nil]
      cases hb : isPre pat []
      · rfl
      · rw [findSubAux, if_pos hb] at h
        exact absurd h (by simp)
    · intro h
      have h0 := h 0
      rw [List.drop_nil] at h0
      rw [findSubAux, if_neg (bfalse h0)]
  | cons a t ih =>
    constructor
    · intro h i
      rw [findSubAux] at h
      split at h
      · exact absurd h (by simp)
      · rename_i hp
        have ht : findSubAux pat t = none := by
          cases hft : findSubAux pat t
          · rfl
          · rw [hft] at h
            exact absurd h (by simp)
        cases i with
        | zero =>
          cases hb : isPre pat ((a :: t).drop 0)
          · rfl
          · exact absurd (by simpa using hb) hp
        | succ i => simpa using (ih.mp ht) i
    · intro h
      rw [findSubAux, if_neg (bfalse (by simpa using h 0)),
        ih.mpr (fun i => by simpa using h (i + 1))]
      rfl

/-- Characters of `htmlSubAux` output come from the input. -/
theorem mem_htmlSubAux {c : Char} :
    ∀ (f : Nat) (l : Str), c ∈ htmlSubAux f l → c ∈ l := by
  intro f
  induction f with
  | zero => intro l h; exact h
  | succ f ih =>
    intro l h
    match l with
    | [] => exact h
    | a :: rest =>
      simp only [htmlSubAux] at h
      split at h
      · split at h
        · split at h
          · exact List.mem_cons_of_mem a (List.drop_subset _ _ (ih _ h))
          · rcases List.mem_cons.mp h with h | h
            · exact h ▸ List.mem_cons_self a rest
            · exact List.mem_cons_of_mem a (ih _ h)
        · rcases List.mem_cons.mp h with h | h
          · exact h ▸ List.mem_cons_self a rest
          · exact List.mem_cons_of_mem a (ih _ h)
      · rcases List.mem_cons.mp h with h | h
        · exact h ▸ List.mem_cons_self a rest
        · exact List.mem_cons_of_mem a (ih _ h)

/-- `htmlOccurs` ignores a non-`<` head. -/
theorem htmlOccurs_cons_ne {c : Char} (t : Str) (h : ¬ c = '<') :
    htmlOccurs (c :: t) = htmlOccurs t := by
  rw [htmlOccurs]
  simp [h]

/-- `htmlOccurs` is monotone into the tail. -/
theorem htmlOccurs_cons_false {c : Char} {t : Str} (h : htmlOccurs (c :: t) = false) :
    htmlOccurs t = false := by
  rw [htmlOccurs] at h
  exact (bor_false h).2

/-- Tag-freedom passes to a suffix. -/
theorem htmlOccurs_append_right (a t : Str) (h : htmlOccurs (a ++ t) = false) :
    htmlOccurs t = false := by
  induction a with
  | nil => exact h
  | cons c a2 ih =>
    rw [List.cons_append] at h
    exact ih (htmlOccurs_cons_false h)

/-- Tag-freedom passes to any drop. -/
theorem htmlOccurs_drop (l : Str) (n : Nat) (h : htmlOccurs l = false) :
    htmlOccurs (l.drop n) = false :=
  htmlOccurs_append_right (l.take n) (l.drop n) (by rw [List.take_append_drop]; exact h)

/-- Prepending text without `<` cannot add a tag. -/
theorem htmlOccurs_append_free (a t : Str) (ha : '<' ∉ a) :
    htmlOccurs (a ++ t) = htmlOccurs t := by
  induction a with
  | nil => rfl
  | cons c a2 ih =>
    rw [List.cons_append,
      htmlOccurs_cons_ne _ (fun hc => ha (hc ▸ List.mem_cons_self c a2)),
      ih (fun hm => ha (List.mem_cons_of_mem c hm))]

/-- Inverting tag-freedom at a `<` head: the first character after it is `>`
or no `>` follows at all, and the tail is tag-free. -/
theorem htmlFree_lt_inv {rest : Str} (h : htmlOccurs ('<' :: rest) = false) :
    (rest.head? = some '>' ∨ '>' ∉ rest) ∧ htmlOccurs rest = false := by
  rw [htmlOccurs] at h
  obtain ⟨hhead, htail⟩ := bor_false h
  refine ⟨?_, htail⟩
  cases hfi : rest.findIdx? (fun x => x = '>') with
  | none =>
    right
    intro hm
    have := List.findIdx?_eq_none_iff.mp hfi '>' hm
    simp at this
  | some i =>
    left
    rw [hfi] at hhead
    simp only [decide_eq_true_eq] at hhead
    have hi0 : i = 0 := by
      by_cases h1i : 1 ≤ i
      · exfalso
        simp [h1i] at hhead
      · omega
    subst hi0
    match rest, hfi with
    | x :: t2, hfi =>
      rw [List.findIdx?_cons] at hfi
      split at hfi
      · rename_i hpx
        rw [List.head?_cons, of_decide_eq_true hpx]
      · rw [List.findIdx?_succ] at hfi
        cases hfj : List.findIdx? (fun x => x = '>') t2 with
        | none => rw [hfj] at hfi; exact absurd hfi (by simp)
        | some j =>
          rw [hfj] at hfi
          simp at hfi

/-- Building tag-freedom at a cons cell. -/
theorem htmlFree_cons (c : Char) (t : Str) (h1 : htmlOccurs t = false)
    (h2 : c = '<' → (t.head? = some '>' ∨ '>' ∉ t)) :
    htmlOccurs (c :: t) = false := by
  by_cases hc : c = '<'
  · subst hc
    rw [htmlOccurs, h1]
    rcases h2 rfl with hh | hh
    · match t, hh with
      | x :: t2, hh =>
        simp only [List.head?_cons, Option.some.injEq] at hh
        subst hh
        have hfi : List.findIdx? (fun x => x = '>') ('>' :: t2) = some 0 := by
          rw [List.findIdx?_cons, if_pos (by simp)]
        rw [hfi]
        simp
    · have hfi : t.findIdx? (fun x => x = '>') = none :=
        List.findIdx?_eq_none_iff.mpr (fun x hx => by
          simp only [decide_eq_false_iff_not]
          intro hxe
          exact hh (hxe ▸ hx))
      rw [hfi]
      simp
  · rw [htmlOccurs_cons_ne _ hc]
    exact h1

/-- The HTML substitution leaves no tag behind. -/
theorem htmlFree_htmlSubAux : ∀ (f : Nat) (l : Str), l.length ≤ f →
    htmlOccurs (htmlSubAux f l) = false := by
  intro f
  induction f with
  | zero =>
    intro l h
    rw [List.length_eq_zero.mp (Nat.le_zero.mp h)]
    rfl
  | succ f ih =>
    intro l h
    match l with
    | [] => rfl
    | c :: rest =>
      have hrest : rest.length ≤ f := by simpa using Nat.le_of_succ_le_succ h
      simp only [htmlSubAux]
      split
      · rename_i hc
        subst hc
        cases hfi : rest.findIdx? (fun x => x = '>') with
        | some i =>
          simp only [hfi]
          split
          · apply ih
            rw [List.length_drop]
            omega
          · rename_i hi
            have hi0 : i = 0 := by omega
            subst hi0
            match rest, hfi, hrest with
            | x :: r2, hfi, hrest =>
              have hx : x = '>' := by
                rw [List.findIdx?_cons] at hfi
                split at hfi
                · rename_i hpx
                  exact of_decide_eq_true hpx
                · rw [List.findIdx?_succ] at hfi
                  cases hfj : List.findIdx? (fun x => x = '>') r2 with
                  | none => rw [hfj] at hfi; exact absurd hfi (by simp)
                  | some j => rw [hfj] at hfi; simp at hfi
              subst hx
              refine htmlFree_cons _ _ (ih _ hrest) (fun _ => Or.inl ?_)
              cases f with
              | zero => rfl
              | succ f2 =>
                show (htmlSubAux (f2 + 1) ('>' :: r2)).head? = some '>'
                simp only [htmlSubAux]
                rw [if_neg (by decide)]
                rfl
        | none =>
          simp only [hfi]
          refine htmlFree_cons _ _ (ih _ hrest) (fun _ => Or.inr ?_)
          intro hm
          have := List.findIdx?_eq_none_iff.mp hfi '>' (mem_htmlSubAux f rest hm)
          simp at this
      · rename_i hc
        exact htmlFree_cons c _ (ih _ hrest) (fun h2 => absurd h2 hc)

/-- `pyReplaceAux` with a pattern headed by a non-angle character and an
angle-free replacement preserves tag-freedom. -/
theorem htmlFree_pyReplaceAux (p0 : Char) (ps repl : Str)
    (hp2 : p0 ≠ '>') (hr1 : '<' ∉ repl) (hr2 : '>' ∉ repl) :
    ∀ (f : Nat) (l : Str), htmlOccurs l = false →
      htmlOccurs (pyReplaceAux (p0 :: ps) repl f l) = false := by
  intro f
  induction f with
  | zero => intro l h; exact h
  | succ f ih =>
    intro l h
    match l with
    | [] => exact h
    | c :: rest =>
      simp only [pyReplaceAux]
      split
      · rw [htmlOccurs_append_free _ _ hr1]
        exact ih _ (htmlOccurs_drop _ _ h)
      · by_cases hc : c = '<'
        · subst hc
          obtain ⟨hh, ht⟩ := htmlFree_lt_inv h
          refine htmlFree_cons _ _ (ih rest ht) (fun _ => ?_)
          rcases hh with hh | hh
          · left
            match rest, hh with
            | x :: r2, hh =>
              simp only [List.head?_cons, Option.some.injEq] at hh
              subst hh
              cases f with
              | zero => rfl
              | succ f2 =>
                show (pyReplaceAux (p0 :: ps) repl (f2 + 1) ('>' :: r2)).head? = some '>'
                simp only [pyReplaceAux]
                rw [if_neg ?_]
                · rfl
                · intro hpre
                  have hb : (decide (p0 = '>') && isPre ps r2) = true := hpre
                  rw [Bool.and_eq_true] at hb
                  exact hp2 (of_decide_eq_true hb.1)
          · right
            intro hm
            rcases mem_pyReplaceAux (p0 :: ps) repl f rest hm with hmm | hmm
            · exact hh hmm
            · exact hr2 hmm
        · exact htmlFree_cons c _ (ih rest (htmlOccurs_cons_false h)) (fun h2 => absurd h2 hc)

/-- A `>`-headed text keeps its head through the heading substitution. -/
theorem headingSubAux_gt : ∀ (f : Nat) (b : Bool) (r : Str),
    (headingSubAux f b ('>' :: r)).head? = some '>' := by
  intro f
  cases f with
  | zero => intro b r; rfl
  | succ f =>
    intro b r
    have hml : headingMatchLen ('>' :: r) = none := by
      rw [headingMatchLen, if_pos]
      rw [countLeading_cons, if_neg (by decide), List.drop_zero,
        countLeading_cons, if_neg (by decide)]
    simp only [headingSubAux]
    cases b with
    | false => rfl
    | true =>
      rw [if_pos rfl, hml]
      rfl

/-- The heading substitution preserves tag-freedom. -/
theorem htmlFree_headingSubAux :
    ∀ (f : Nat) (b : Bool) (l : Str), htmlOccurs l = false →
      htmlOccurs (headingSubAux f b l) = false := by
  intro f
  induction f with
  | zero => intro b l h; exact h
  | succ f ih =>
    intro b l h
    match l with
    | [] => exact h
    | c :: rest =>
      have hkept : htmlOccurs (c :: headingSubAux f (decide (c = '\n')) rest) = false := by
        by_cases hc : c = '<'
        · subst hc
          obtain ⟨hh, ht⟩ := htmlFree_lt_inv h
          refine htmlFree_cons _ _ (ih _ rest ht) (fun _ => ?_)
          rcases hh with hh | hh
          · left
            match rest, hh with
            | x :: r2, hh =>
              simp only [List.head?_cons, Option.some.injEq] at hh
              subst hh
              exact headingSubAux_gt f _ r2
          · right
            intro hm
            exact hh (mem_headingSubAux f _ rest hm)
        · exact htmlFree_cons c _ (ih _ rest (htmlOccurs_cons_false h)) (fun h2 => absurd h2 hc)
      simp only [headingSubAux]
      split
      · split
        · exact ih _ _ (htmlOccurs_drop _ _ h)
        · exact hkept
      · exact hkept

/-- Newline collapsing preserves tag-freedom. -/
theorem htmlFree_collapseNlAux :
    ∀ (f : Nat) (l : Str), htmlOccurs l = false →
      htmlOccurs (collapseNlAux f l) = false := by
  intro f
  induction f with
  | zero => intro l h; exact h
  | succ f ih =>
    intro l h
    match l with
    | [] => exact h
    | c :: rest =>
      simp only [collapseNlAux]
      split
      · refine htmlFree_cons _ _ ?_ (fun h2 => absurd h2 (by decide))
        refine htmlFree_cons _ _ ?_ (fun h2 => absurd h2 (by decide))
        exact ih _ (htmlOccurs_drop rest _ (htmlOccurs_cons_false h))
      · by_cases hc : c = '<'
        · subst hc
          obtain ⟨hh, ht⟩ := htmlFree_lt_inv h
          refine htmlFree_cons _ _ (ih rest ht) (fun _ => ?_)
          rcases hh with hh | hh
          · left
            rw [collapseNlAux_head?]
            exact hh
          · right
            intro hm
            rcases mem_collapseNlAux f rest hm with hmm | hmm
            · exact hh hmm
            · exact absurd hmm (by decide)
        · exact htmlFree_cons c _ (ih rest (htmlOccurs_cons_false h)) (fun h2 => absurd h2 hc)

/-- Tag-freedom passes to a prefix. -/
theorem htmlOccurs_append_left : ∀ (p s : Str), htmlOccurs (p ++ s) = false →
    htmlOccurs p = false := by
  intro p
  induction p with
  | nil => intro s h; rfl
  | cons c p2 ih =>
    intro s h
    rw [List.cons_append] at h
    have hp2 := ih s (htmlOccurs_cons_false h)
    by_cases hc : c = '<'
    · subst hc
      obtain ⟨hh, _⟩ := htmlFree_lt_inv h
      refine htmlFree_cons _ _ hp2 (fun _ => ?_)
      rcases hh with hh | hh
      · match p2, hh with
        | [], _ =>
          right
          exact List.not_mem_nil '>'
        | x :: t2, hh =>
          left
          rw [List.cons_append, List.head?_cons] at hh
          rw [List.head?_cons]
          exact hh
      · right
        intro hm
        exact hh (List.mem_append.mpr (Or.inl hm))
    · exact htmlFree_cons c _ hp2 (fun h2 => absurd h2 hc)

/-- Tag-freedom passes to any contiguous infix. -/
theorem htmlOccurs_infix {u l : Str} (hinf : u <:+: l) (h : htmlOccurs l = false) :
    htmlOccurs u = false := by
  obtain ⟨s, t, rfl⟩ := hinf
  exact htmlOccurs_append_left u t
    (htmlOccurs_append_right s _ (by rwa [List.append_assoc] at h))

/-- `pyStrip` preserves tag-freedom. -/
theorem htmlOccurs_pyStrip (l : Str) (h : htmlOccurs l = false) :
    htmlOccurs (pyStrip l) = false :=
  htmlOccurs_infix (pyStrip_sublist l) h

/-- The sanitized output never contains an HTML-like tag: the HTML
substitution removes every tag, and each later stage only deletes or
replaces non-angle characters. -/
theorem htmlOccurs_final_sanitize (x : Str) : htmlOccurs (final_sanitize x) = false := by
  unfold final_sanitize
  apply htmlOccurs_pyStrip
  unfold collapseNl
  apply htmlFree_collapseNlAux
  unfold strip_markdown_symbols headingSub
  apply htmlFree_headingSubAux
  unfold pyReplace
  apply htmlFree_pyReplaceAux _ _ _ (by decide)
      (List.not_mem_nil '<') (List.not_mem_nil '>')
  apply htmlFree_pyReplaceAux _ _ _ (by decide)
      (List.not_mem_nil '<') (List.not_mem_nil '>')
  apply htmlFree_pyReplaceAux _ _ _ (by decide)
      (List.not_mem_nil '<') (List.not_mem_nil '>')
  apply htmlFree_pyReplaceAux _ _ _ (by decide) (by decide) (by decide)
  unfold clean_noise
  split
  · rename_i hl
    rw [hl]
    rfl
  · apply htmlOccurs_pyStrip
    unfold htmlSub
    exact htmlFree_htmlSubAux _ _ le_rfl

/-- ASCII lowering maps no character onto `<` or `>` except themselves
(uppercase letters lower into the letter range). -/
theorem asciiLowerChar_angle {c d : Char} (hd : d = '<' ∨ d = '>')
    (h : asciiLowerChar c = d) : c = d := by
  unfold asciiLowerChar at h
  split at h
  · rename_i hr
    exfalso
    obtain ⟨h1, h2⟩ := hr
    obtain ⟨n, hn1, hn2, hchar⟩ : ∃ n, 65 ≤ n ∧ n ≤ 90 ∧ Char.ofNat (n + 32) = d :=
      ⟨c.toNat, h1, h2, h⟩
    rcases hd with hd | hd <;> subst hd <;> interval_cases n <;>
      exact absurd hchar (by decide)
  · exact h

/-- A tag-free text contains no `<out>` marker in any letter case. -/
theorem findCI_open_none (y : Str) (h : htmlOccurs y = false) :
    findCI "<out>".toList y = none := by
  rw [findCI, show asciiLower "<out>".toList = "<out>".toList from by decide,
    findSubAux_none_iff]
  intro i
  cases hb : isPre "<out>".toList ((asciiLower y).drop i) with
  | false => rfl
  | true =>
    exfalso
    rw [show (asciiLower y).drop i = asciiLower (y.drop i) from (List.map_drop ..).symm]
      at hb
    have hfree : htmlOccurs (y.drop i) = false := htmlOccurs_drop y i h
    rw [show ("<out>".toList) = ['<', 'o', 'u', 't', '>'] from rfl] at hb
    match y.drop i, hb, hfree with
    | [], hb, _ => simp [asciiLower, isPre] at hb
    | [c0], hb, _ => simp [asciiLower, isPre] at hb
    | [c0, c1], hb, _ => simp [asciiLower, isPre] at hb
    | [c0, c1, c2], hb, _ => simp [asciiLower, isPre] at hb
    | [c0, c1, c2, c3], hb, _ => simp [asciiLower, isPre] at hb
    | c0 :: c1 :: c2 :: c3 :: c4 :: r, hb, hfree =>
      simp only [asciiLower, List.map_cons, isPre, Bool.and_eq_true,
        decide_eq_true_eq] at hb
      obtain ⟨e0, e1, e2, e3, e4, _⟩ := hb
      have hc0 : c0 = '<' := asciiLowerChar_angle (Or.inl rfl) e0.symm
      have hc4 : c4 = '>' := asciiLowerChar_angle (Or.inr rfl) e4.symm
      have hne1 : ¬ c1 = '>' := fun hc => by rw [hc] at e1; exact absurd e1 (by decide)
      have hne2 : ¬ c2 = '>' := fun hc => by rw [hc] at e2; exact absurd e2 (by decide)
      have hne3 : ¬ c3 = '>' := fun hc => by rw [hc] at e3; exact absurd e3 (by decide)
      subst hc0
      subst hc4
      rw [htmlOccurs] at hfree
      obtain ⟨hhead, _⟩ := bor_false hfree
      have hfi : List.findIdx? (fun x => x = '>') (c1 :: c2 :: c3 :: '>' :: r) = some 3 := by
        simp [List.findIdx?_cons, hne1, hne2, hne3]
      rw [hfi] at hhead
      simp at hhead

/-- A tag-free text contains no closing marker in any letter case. -/
theorem findCI_close_none (y : Str) (h : htmlOccurs y = false) :
    findCI "</out>".toList y = none := by
  rw [findCI, show asciiLower "</out>".toList = "</out>".toList from by decide,
    findSubAux_none_iff]
  intro i
  cases hb : isPre "</out>".toList ((asciiLower y).drop i) with
  | false => rfl
  | true =>
    exfalso
    rw [show (asciiLower y).drop i = asciiLower (y.drop i) from (List.map_drop ..).symm]
      at hb
    have hfree : htmlOccurs (y.drop i) = false := htmlOccurs_drop y i h
    rw [show ("</out>".toList) = ['<', '/', 'o', 'u', 't', '>'] from rfl] at hb
    match y.drop i, hb, hfree with
    | [], hb, _ => simp [asciiLower, isPre] at hb
    | [c0], hb, _ => simp [asciiLower, isPre] at hb
    | [c0, c1], hb, _ => simp [asciiLower, isPre] at hb
    | [c0, c1, c2], hb, _ => simp [asciiLower, isPre] at hb
    | [c0, c1, c2, c3], hb, _ => simp [asciiLower, isPre] at hb
    | [c0, c1, c2, c3, c4], hb, _ => simp [asciiLower, isPre] at hb
    | c0 :: c1 :: c2 :: c3 :: c4 :: c5 :: r, hb, hfree =>
      simp only [asciiLower, List.map_cons, isPre, Bool.and_eq_true,
        decide_eq_true_eq] at hb
      obtain ⟨e0, e1, e2, e3, e4, e5, _⟩ := hb
      have hc0 : c0 = '<' := asciiLowerChar_angle (Or.inl rfl) e0.symm
      have hc5 : c5 = '>' := asciiLowerChar_angle (Or.inr rfl) e5.symm
      have hne1 : ¬ c1 = '>' := fun hc => by rw [hc] at e1; exact absurd e1 (by decide)
      have hne2 : ¬ c2 = '>' := fun hc => by rw [hc] at e2; exact absurd e2 (by decide)
      have hne3 : ¬ c3 = '>' := fun hc => by rw [hc] at e3; exact absurd e3 (by decide)
      have hne4 : ¬ c4 = '>' := fun hc => by rw [hc] at e4; exact absurd e4 (by decide)
      subst hc0
      subst hc5
      rw [htmlOccurs] at hfree
      obtain ⟨hhead, _⟩ := bor_false hfree
      have hfi : List.findIdx? (fun x => x = '>')
          (c1 :: c2 :: c3 :: c4 :: '>' :: r) = some 4 := by
        simp [List.findIdx?_cons, hne1, hne2, hne3, hne4]
      rw [hfi] at hhead
      simp at hhead

/-- C1 counterexample: stripping markdown/HTML markup can itself re-create
the forbidden markers, so the claimed output invariant fails: a backticked
"note:" survives marker removal and becomes a live "note:" line; seven
hashes leave a heading marker "# "; "[*SYS*]" becomes the instruction tag
"[SYS]". -/
theorem C1_markers_can_survive :
    final_sanitize "ans\n`note`: secret".toList = "ans\nnote: secret".toList
    ∧ dangerousOccurs (final_sanitize "ans\n`note`: secret".toList) = true
    ∧ final_sanitize "####### x".toList = "# x".toList
    ∧ (headingMatchLen (final_sanitize "####### x".toList)).isSome = true
    ∧ final_sanitize "[*SYS*]".toList = "[SYS]".toList
    ∧ noiseOccurs (final_sanitize "[*SYS*]".toList) = true := by
  refine ⟨by decide, by decide, by decide, by decide, by decide, by decide⟩

/-- C1 (amended): for every raw completion, the sanitized output contains no
HTML-like tag — hence no angle-bracket instruction/system tag and no
`<out>`/`</out>` out-marker in any letter case — no vertical bar, no
asterisk, no backtick, and no run of three or more consecutive newlines.
(The remaining original guarantees — no square-bracket instruction tags, no
heading markers, no content at a "note:"/"output:" line — fail, because
stripping surrounding markup runs after marker removal and can re-create
those markers; see the counterexample.) -/
theorem C1_sanitize_invariant_spec :
    ∀ x : Str,
      htmlOccurs (final_sanitize x) = false
      ∧ findCI "<out>".toList (final_sanitize x) = none
      ∧ findCI "</out>".toList (final_sanitize x) = none
      ∧ '|' ∉ final_sanitize x ∧ '*' ∉ final_sanitize x ∧ '`' ∉ final_sanitize x
      ∧ has3nl (final_sanitize x) = false := by
  intro x
  have hht := htmlOccurs_final_sanitize x
  have hs := strip_markdown_no_symbols (clean_noise (strip_after_markers (extract_out x)))
  refine ⟨hht, findCI_open_none _ hht, findCI_close_none _ hht, ?_, ?_, ?_, ?_⟩
  · show '|' ∉ final_sanitize x
    unfold final_sanitize
    intro h
    rcases mem_collapseNlAux _ _ (mem_pyStrip _ h) with h | h
    · exact hs.1 h
    · exact absurd h (by decide)
  · show '*' ∉ final_sanitize x
    unfold final_sanitize
    intro h
    rcases mem_collapseNlAux _ _ (mem_pyStrip _ h) with h | h
    · exact hs.2.1 h
    · exact absurd h (by decide)
  · show '`' ∉ final_sanitize x
    unfold final_sanitize
    intro h
    rcases mem_collapseNlAux _ _ (mem_pyStrip _ h) with h | h
    · exact hs.2.2 h
    · exact absurd h (by decide)
  · show has3nl (final_sanitize x) = false
    unfold final_sanitize
    exact has3nl_pyStrip _ (has3nl_collapseNl _)

/-- C1 witness: the amended invariant evaluated at a concrete raw
completion full of markup. -/
theorem C1_sanitize_invariant_spec_witness :
    htmlOccurs (final_sanitize "a | b\n\n\n\n**bold** `code`".toList) = false
    ∧ findCI "<out>".toList (final_sanitize "a | b\n\n\n\n**bold** `code`".toList) = none
    ∧ findCI "</out>".toList (final_sanitize "a | b\n\n\n\n**bold** `code`".toList) = none
    ∧ '|' ∉ final_sanitize "a | b\n\n\n\n**bold** `code`".toList
    ∧ '*' ∉ final_sanitize "a | b\n\n\n\n**bold** `code`".toList
    ∧ '`' ∉ final_sanitize "a | b\n\n\n\n**bold** `code`".toList
    ∧ has3nl (final_sanitize "a | b\n\n\n\n**bold** `code`".toList) = false :=
  C1_sanitize_invariant_spec "a | b\n\n\n\n**bold** `code`".toList

-- Fixed-point lemmas: each sanitizer stage is the identity on clean text --

/-- No occurrence in a list means no occurrence in any of its drops. -/
theorem findSubAux_none_drop {α : Type} [DecidableEq α] (pat l : List α) (k : Nat)
    (h : findSubAux pat l = none) : findSubAux pat (l.drop k) = none := by
  rw [findSubAux_none_iff] at h ⊢
  intro i
  rw [List.drop_drop]
  exact h _

/-- `findCI` version of `findSubAux_none_drop`. -/
theorem findCI_none_drop (pat l : Str) (k : Nat) (h : findCI pat l = none) :
    findCI pat (l.drop k) = none := by
  unfold findCI at h ⊢
  rw [show asciiLower (l.drop k) = (asciiLower l).drop k from List.map_drop ..]
  exact findSubAux_none_drop _ _ _ h

/-- `_extract_out` is the identity on stripped text without `</out>`. -/
theorem extract_out_id (y : Str) (hclose : findCI "</out>".toList y = none)
    (hstrip : pyStrip y = y) : extract_out y = y := by
  unfold extract_out
  split
  · rename_i h
    exact h.symm
  · cases hopen : findCI "<out>".toList y with
    | none =>
      show fallbackClose y = y
      unfold fallbackClose
      rw [hclose]
      exact hstrip
    | some p =>
      show (match findCI "</out>".toList (y.drop (p + 5)) with
        | some q => pyStrip ((y.drop (p + 5)).take q)
        | none => fallbackClose y) = y
      rw [findCI_none_drop _ _ _ hclose]
      show fallbackClose y = y
      unfold fallbackClose
      rw [hclose]
      exact hstrip

/-- The newline-anchor scan is the identity when no anchor matches. -/
theorem samAux_id : ∀ y : Str, dangerousNlOccurs y = false → samAux y = y := by
  intro y
  induction y with
  | nil => intro h; rfl
  | cons c rest ih =>
    intro h
    rw [dangerousNlOccurs] at h
    obtain ⟨h1, h2⟩ := bor_false h
    rw [samAux, if_neg (fun hc => by
      rw [hc.1] at h1
      rw [hc.2] at h1
      simp at h1)]
    rw [ih h2]

/-- `_strip_after_markers` is the identity on stripped, marker-free text. -/
theorem strip_after_markers_id (y : Str) (h : dangerousOccurs y = false)
    (hstrip : pyStrip y = y) : strip_after_markers y = y := by
  unfold dangerousOccurs at h
  obtain ⟨h1, h2⟩ := bor_false h
  unfold strip_after_markers
  rw [if_neg (bfalse h1), samAux_id y h2]
  exact hstrip

/-- The noise substitution is the identity without noise tokens. -/
theorem noiseSubAux_id : ∀ (f : Nat) (y : Str), noiseOccurs y = false →
    noiseSubAux f y = y := by
  intro f
  induction f with
  | zero => intro y h; rfl
  | succ f ih =>
    intro y h
    match y with
    | [] => rfl
    | c :: rest =>
      rw [noiseOccurs] at h
      obtain ⟨h1, h2⟩ := bor_false h
      have hn : noiseTokenAt (c :: rest) = none := by
        cases hm : noiseTokenAt (c :: rest)
        · rfl
        · rw [hm] at h1
          exact absurd h1 (by simp)
      simp only [noiseSubAux]
      rw [hn]
      show c :: noiseSubAux f rest = c :: rest
      rw [ih rest h2]

/-- The tag substitution is the identity without HTML-like tags. -/
theorem htmlSubAux_id : ∀ (f : Nat) (y : Str), htmlOccurs y = false →
    htmlSubAux f y = y := by
  intro f
  induction f with
  | zero => intro y h; rfl
  | succ f ih =>
    intro y h
    match y with
    | [] => rfl
    | c :: rest =>
      rw [htmlOccurs] at h
      obtain ⟨h1, h2⟩ := bor_false h
      simp only [htmlSubAux]
      split
      · rename_i hc
        have hin : (match rest.findIdx? (fun x => x = '>') with
            | some i => decide (1 ≤ i)
            | none => false) = false := by
          simpa [hc] using h1
        cases hf : rest.findIdx? (fun x => x = '>') with
        | some i =>
          rw [hf] at hin
          show (if 1 ≤ i then htmlSubAux f (rest.drop (i + 1))
            else c :: htmlSubAux f rest) = c :: rest
          rw [if_neg (of_decide_eq_false hin)]
          rw [ih rest h2]
        | none =>
          show c :: htmlSubAux f rest = c :: rest
          rw [ih rest h2]
      · rw [ih rest h2]

/-- `_clean_noise` is the identity on stripped text without noise tokens or
tags. -/
theorem clean_noise_id (y : Str) (hn : noiseOccurs y = false)
    (hh : htmlOccurs y = false) (hs : pyStrip y = y) : clean_noise y = y := by
  unfold clean_noise
  split
  · rfl
  · rw [show noiseSub y = y from noiseSubAux_id _ y hn,
      show htmlSub y = y from htmlSubAux_id _ y hh]
    exact hs

/-- `pyReplace` is the identity when the pattern head is absent. -/
theorem pyReplaceAux_id {a : Char} (as repl : Str) :
    ∀ (f : Nat) (l : Str), a ∉ l → pyReplaceAux (a :: as) repl f l = l := by
  intro f
  induction f with
  | zero => intro l h; rfl
  | succ f ih =>
    intro l hmem
    match l with
    | [] => rfl
    | c :: rest =>
      simp only [pyReplaceAux]
      rw [if_neg (fun hp => by
        have hac : a = c := by
          simp only [isPre, Bool.and_eq_true, decide_eq_true_eq] at hp
          exact hp.1
        exact hmem (hac ▸ List.mem_cons_self a rest))]
      rw [ih rest (fun hr => hmem (List.mem_cons_of_mem c hr))]

/-- The heading substitution is the identity without heading matches. -/
theorem headingSubAux_id : ∀ (f : Nat) (b : Bool) (y : Str),
    headingOccursAux b y = false → headingSubAux f b y = y := by
  intro f
  induction f with
  | zero => intro b y h; rfl
  | succ f ih =>
    intro b y h
    match y with
    | [] => rfl
    | c :: rest =>
      rw [headingOccursAux] at h
      obtain ⟨h1, h2⟩ := bor_false h
      simp only [headingSubAux]
      split
      · rename_i hb
        have hm : headingMatchLen (c :: rest) = none := by
          cases hmm : headingMatchLen (c :: rest)
          · rfl
          · rw [hb, hmm] at h1
            exact absurd h1 (by simp)
        rw [hm]
        show c :: headingSubAux f (decide (c = '\n')) rest = c :: rest
        rw [ih _ rest h2]
      · rw [ih _ rest h2]

/-- `has3nl` is monotone under dropping the head. -/
theorem has3nl_tail {c : Char} : ∀ m : Str, has3nl (c :: m) = false →
    has3nl m = false := by
  intro m h
  match m with
  | [] => rfl
  | [x] => rfl
  | x :: y :: t =>
    rw [has3nl] at h
    exact (bor_false h).2

/-- Newline collapsing is the identity without triple newlines. -/
theorem collapseNlAux_id : ∀ (f : Nat) (y : Str), has3nl y = false →
    collapseNlAux f y = y := by
  intro f
  induction f with
  | zero => intro y h; rfl
  | succ f ih =>
    intro y h
    match y with
    | [] => rfl
    | c :: rest =>
      simp only [collapseNlAux]
      split
      · rename_i hc
        obtain ⟨hcn, hk⟩ := hc
        match rest, hk, h with
        | r0 :: t, hk, h =>
          have hr0 : r0 = '\n' := by
            by_contra hr
            rw [countLeading_cons, if_neg (by simpa using hr)] at hk
            omega
          by_cases h2 : 1 ≤ countLeading (fun x => x = '\n') t
          · exfalso
            match t, h2, h with
            | t0 :: t2, h2, h =>
              have ht0 : t0 = '\n' := by
                by_contra hr
                rw [countLeading_cons, if_neg (by simpa using hr)] at h2
                omega
              rw [hcn, hr0, ht0] at h
              rw [has3nl] at h
              simp at h
          · have hk1 : countLeading (fun x => x = '\n') (r0 :: t) = 1 := by
              rw [countLeading_cons, if_pos (by simp [hr0])]
              omega
            rw [hk1]
            show '\n' :: '\n' :: collapseNlAux f ((r0 :: t).drop 1) = c :: r0 :: t
            rw [hcn, hr0]
            show '\n' :: '\n' :: collapseNlAux f t = '\n' :: '\n' :: t
            rw [ih t (has3nl_tail _ (has3nl_tail _ h))]
      · show c :: collapseNlAux f rest = c :: rest
        rw [ih rest (has3nl_tail _ h)]

/-- Every sanitizer stage fixes a `CleanOut` string, so the whole pipeline
does. -/
theorem final_sanitize_fixed (y : Str) (h : CleanOut y) : final_sanitize y = y := by
  obtain ⟨h1, h2, h3, h4, h5, h6, h7, h8, h9, h10⟩ := h
  unfold final_sanitize
  rw [extract_out_id y h1 h10, strip_after_markers_id y h2 h10,
    clean_noise_id y h3 h4 h10]
  unfold strip_markdown_symbols
  rw [show pyReplace ['|'] [' '] y = y from pyReplaceAux_id [] [' '] y.length y h5]
  rw [show pyReplace ['*', '*'] [] y = y from pyReplaceAux_id ['*'] [] y.length y h6]
  rw [show pyReplace ['*'] [] y = y from pyReplaceAux_id [] [] y.length y h6]
  rw [show pyReplace ['`'] [] y = y from pyReplaceAux_id [] [] y.length y h7]
  rw [show headingSub y = y from headingSubAux_id y.length true y h8]
  rw [show collapseNl y = y from collapseNlAux_id y.length y h9]
  exact h10

-- ---------------------------------------------------------------------------
-- Claim C7: idempotence of sanitization
-- ---------------------------------------------------------------------------

/-- C7: sanitization is idempotent once markup/markers are already removed:
for every input whose sanitized form satisfies `CleanOut` (the precise
"markup/markers already removed" side condition), sanitizing again changes
nothing. -/
theorem C7_sanitize_idempotent :
    ∀ x : Str, CleanOut (final_sanitize x) →
      final_sanitize (final_sanitize x) = final_sanitize x :=
  fun _ h => final_sanitize_fixed _ h

/-- C7 witness: `C7_sanitize_idempotent` at a concrete completion carrying
an out-wrapper, emphasis markers and a trailing note section. -/
theorem C7_sanitize_idempotent_witness :
    CleanOut (final_sanitize "<out>answer *x*</out>\nNote: internal".toList)
    ∧ final_sanitize (final_sanitize "<out>answer *x*</out>\nNote: internal".toList)
      = final_sanitize "<out>answer *x*</out>\nNote: internal".toList :=
  ⟨by decide, C7_sanitize_idempotent "<out>answer *x*</out>\nNote: internal".toList (by decide)⟩

-- ---------------------------------------------------------------------------
-- Claim C4: multipart round-trip — split/occurrence infrastructure
-- ---------------------------------------------------------------------------

/-- `isPre` as a `take` equation. -/
theorem isPre_iff_take {α : Type} [DecidableEq α] :
    ∀ (pat l : List α), isPre pat l = true ↔ l.take pat.length = pat
  | [], l => by simp [isPre]
  | p :: ps, [] => by simp [isPre]
  | p :: ps, x :: xs => by
    rw [isPre, List.length_cons, List.take_succ_cons, Bool.and_eq_true,
      decide_eq_true_eq, isPre_iff_take ps xs]
    constructor
    · rintro ⟨h1, h2⟩
      rw [← h1, h2]
    · intro h
      injection h with h1 h2
      exact ⟨h1.symm, h2⟩

/-- A prefix pattern is no longer than the text. -/
theorem isPre_length {α : Type} [DecidableEq α] {pat l : List α}
    (h : isPre pat l = true) : pat.length ≤ l.length := by
  have ht := congrArg List.length ((isPre_iff_take pat l).mp h)
  rw [List.length_take] at ht
  omega

/-- Every list prefixes itself extended. -/
theorem isPre_append_self {α : Type} [DecidableEq α] :
    ∀ (l r : List α), isPre l (l ++ r) = true := by
  intro l
  induction l with
  | nil => intro r; rfl
  | cons p ps ih => intro r; simp [isPre, ih r]

/-- A found occurrence fits inside the text. -/
theorem findSubAux_occ_bound {α : Type} [DecidableEq α] {pat : List α} :
    ∀ {l : List α} {i : Nat}, findSubAux pat l = some i → i + pat.length ≤ l.length := by
  intro l
  induction l with
  | nil =>
    intro i h
    rw [findSubAux] at h
    split at h
    · rename_i hp
      injection h with h
      subst h
      simpa using isPre_length hp
    · exact absurd h (by simp)
  | cons a t ih =>
    intro i h
    rw [findSubAux] at h
    split at h
    · rename_i hp
      injection h with h
      subst h
      simpa using isPre_length hp
    · cases hft : findSubAux pat t with
      | none => rw [hft] at h; exact absurd h (by simp)
      | some j =>
        rw [hft] at h
        injection h with h
        subst h
        have := ih hft
        simp only [List.length_cons]
        omega

/-- `findSubAux` on a cons with no match at the head. -/
theorem findSubAux_none_cons {α : Type} [DecidableEq α] {pat : List α} {x : α}
    {m : List α} (h : findSubAux pat (x :: m) = none) :
    findSubAux pat m = none ∧ isPre pat (x :: m) = false := by
  rw [findSubAux] at h
  split at h
  · exact absurd h (by simp)
  · rename_i hp
    refine ⟨?_, by cases hb : isPre pat (x :: m); rfl; exact absurd hb hp⟩
    cases hft : findSubAux pat m
    · rfl
    · rw [hft] at h
      exact absurd h (by simp)

/-- Leftmost search over `a ++ pat ++ b` finds exactly the seam occurrence
when `pat` occurs nowhere earlier (no occurrence inside
`(a ++ pat).dropLast`, which covers every overlap reaching into `pat`). -/
theorem findSubAux_append_first {α : Type} [DecidableEq α] (pat : List α)
    (hpat : pat ≠ []) :
    ∀ (a b : List α), findSubAux pat ((a ++ pat).dropLast) = none →
      findSubAux pat (a ++ pat ++ b) = some a.length := by
  intro a
  induction a with
  | nil =>
    intro b _
    match pat, hpat with
    | p :: ps, _ =>
      show findSubAux (p :: ps) (p :: (ps ++ b)) = some 0
      rw [findSubAux,
        if_pos (show isPre (p :: ps) (p :: (ps ++ b)) = true from isPre_append_self (p :: ps) b)]
  | cons x a' ih =>
    intro b h
    have hne : a' ++ pat ≠ [] := by
      intro he
      exact hpat (List.append_eq_nil.mp he).2
    rw [show ((x :: a') ++ pat) = x :: (a' ++ pat) from rfl,
      List.dropLast_cons_of_ne_nil hne] at h
    obtain ⟨htail, hhead⟩ := findSubAux_none_cons h
    have hstep : findSubAux pat (a' ++ pat ++ b) = some a'.length := ih b htail
    show findSubAux pat (x :: (a' ++ pat ++ b)) = some (a'.length + 1)
    rw [findSubAux]
    rw [if_neg ?_, hstep]
    · rfl
    · intro hp
      -- an occurrence at the very head would already live inside
      -- x :: (a' ++ pat).dropLast
      apply bfalse hhead
      rw [isPre_iff_take] at hp ⊢
      have h3 : 1 ≤ pat.length := by
        cases pat
        · exact absurd rfl hpat
        · simp
      have hlen : pat.length ≤ (x :: (a' ++ pat).dropLast).length := by
        have h1 : (a' ++ pat).length = a'.length + pat.length := List.length_append ..
        have h2 : ((a' ++ pat).dropLast).length = (a' ++ pat).length - 1 :=
          List.length_dropLast _
        simp only [List.length_cons]
        omega
      have hsplit : x :: (a' ++ pat ++ b)
          = (x :: (a' ++ pat).dropLast) ++ ([(a' ++ pat).getLast hne] ++ b) := by
        rw [List.cons_append, ← List.append_assoc,
          List.dropLast_append_getLast hne, List.append_assoc]
      rw [hsplit, List.take_append_of_le_length hlen] at hp
      exact hp

/-- `findSubAux` finds nothing in the empty list for a nonempty pattern. -/
theorem findSubAux_nil {α : Type} [DecidableEq α] {pat : List α} (hpat : pat ≠ []) :
    findSubAux pat ([] : List α) = none := by
  match pat, hpat with
  | p :: ps, _ => rfl

/-- `pySplitAux` is fuel-invariant above the input length. -/
theorem pySplitAux_fuel {α : Type} [DecidableEq α] (pat : List α) (hpat : pat ≠ []) :
    ∀ (f : Nat) (l : List α) (f2 : Nat), l.length ≤ f → l.length ≤ f2 →
      pySplitAux pat f l = pySplitAux pat f2 l := by
  intro f
  induction f with
  | zero =>
    intro l f2 h _
    rw [List.length_eq_zero.mp (Nat.le_zero.mp h)]
    cases f2 with
    | zero => rfl
    | succ f2 =>
      rw [pySplitAux, pySplitAux, findSubAux_nil hpat]
  | succ f ih =>
    intro l f2 h h2
    cases hf : findSubAux pat l with
    | none =>
      have e1 : pySplitAux pat (f + 1) l = [l] := by
        rw [pySplitAux]
        simp only [hf]
      rw [e1]
      cases f2 with
      | zero =>
        rw [List.length_eq_zero.mp (Nat.le_zero.mp h2)]
        rfl
      | succ f2 =>
        rw [pySplitAux]
        simp only [hf]
    | some i =>
      have hbound := findSubAux_occ_bound hf
      have hpl : 1 ≤ pat.length := by
        cases pat
        · exact absurd rfl hpat
        · simp
      have hlne : l ≠ [] := by
        intro he
        subst he
        rw [List.length_nil] at hbound
        omega
      match l, hlne with
      | c :: t, _ =>
        have hlen1 : (c :: t).length = t.length + 1 := rfl
        cases f2 with
        | zero =>
          rw [hlen1] at h2
          omega
        | succ f2 =>
          have hd : ((c :: t).drop (i + pat.length)).length ≤ t.length := by
            rw [List.length_drop]
            simp only [List.length_cons]
            omega
          have e1 : pySplitAux pat (f + 1) (c :: t)
              = (c :: t).take i :: pySplitAux pat f ((c :: t).drop (i + pat.length)) := by
            rw [pySplitAux]
            simp only [hf]
          have e2 : pySplitAux pat (f2 + 1) (c :: t)
              = (c :: t).take i :: pySplitAux pat f2 ((c :: t).drop (i + pat.length)) := by
            rw [pySplitAux]
            simp only [hf]
          rw [e1, e2,
            ih _ f2 (le_trans hd (by rw [hlen1] at h; omega))
              (le_trans hd (by rw [hlen1] at h2; omega))]

/-- Splitting `a ++ pat ++ b` on `pat` when `pat` occurs in the `a`-part
only at the seam: the head piece is `a` and splitting continues on `b`. -/
theorem pySplit_append {α : Type} [DecidableEq α] (pat a b : List α)
    (hpat : pat ≠ []) (h : findSubAux pat ((a ++ pat).dropLast) = none) :
    pySplit (a ++ pat ++ b) pat = a :: pySplit b pat := by
  unfold pySplit
  rw [if_neg hpat, if_neg hpat]
  have hfind := findSubAux_append_first pat hpat a b h
  have hlen : (a ++ pat ++ b).length = a.length + pat.length + b.length := by
    rw [List.length_append, List.length_append]
  have hpl : 1 ≤ pat.length := by
    cases pat
    · exact absurd rfl hpat
    · simp
  have htake : (a ++ pat ++ b).take a.length = a := by
    rw [List.append_assoc]
    exact List.take_left ..
  have hdrop : (a ++ pat ++ b).drop (a.length + pat.length) = b := by
    exact List.drop_left' (by rw [List.length_append])
  match hL : (a ++ pat ++ b).length, hlen with
  | 0, hlen => omega
  | L + 1, hlen =>
    have e1 : pySplitAux pat (L + 1) (a ++ pat ++ b)
        = (a ++ pat ++ b).take a.length
          :: pySplitAux pat L ((a ++ pat ++ b).drop (a.length + pat.length)) := by
      rw [pySplitAux]
      simp only [hfind]
    rw [e1, htake, hdrop, pySplitAux_fuel pat hpat L b b.length (by omega) le_rfl]

-- ---------------------------------------------------------------------------
-- C4: a concrete two-part multipart body (text field "lang"="en" plus a file
-- part "file"/"a.png") with symbolic file content, threaded through
-- parse_multipart (attraction-scanner.py lines 191-244).
-- ---------------------------------------------------------------------------

/-- The split delimiter `b"--" + boundary` for boundary `XBOUND`. -/
def c4_delim : Bytes := [45, 45] ++ encodeAscii "XBOUND".toList

/-- The end delimiter `b"--" + boundary + b"--"`. -/
def c4_endD : Bytes := [45, 45] ++ encodeAscii "XBOUND".toList ++ [45, 45]

/-- Header line of the text-field segment. -/
def c4_hdr1 : Bytes := encodeAscii "Content-Disposition: form-data; name=\"lang\"".toList

/-- Header block of the file segment (disposition plus content type). -/
def c4_hdr2 : Bytes :=
  encodeAscii "Content-Disposition: form-data; name=\"file\"; filename=\"a.png\"\r\nContent-Type: image/png".toList

/-- The text-field segment between two boundary delimiters. -/
def c4_seg1 : Bytes := [13, 10] ++ (c4_hdr1 ++ crlfcrlf ++ (encodeAscii "en".toList ++ [13, 10]))

/-- The file segment between two boundary delimiters, with symbolic content. -/
def c4_seg2 (content : Bytes) : Bytes :=
  [13, 10] ++ ((c4_hdr2 ++ crlfcrlf) ++ (content ++ [13, 10]))

/-- The closing `--\r\n` after the final delimiter. -/
def c4_tail : Bytes := [45, 45, 13, 10]

/-- The complete two-part multipart body. -/
def c4_body (content : Bytes) : Bytes :=
  c4_delim ++ c4_seg1 ++ c4_delim ++ c4_seg2 content ++ c4_delim ++ c4_tail

/-- The request content type declaring boundary `XBOUND`. -/
def c4_ct : Str := "multipart/form-data; boundary=XBOUND".toList

/-- The expected parsed file part. -/
def c4_file (content : Bytes) : MPFile :=
  { filename := "a.png".toList,
    content_type := encodeAscii "image/png".toList,
    content := content }

/-- `dropWhile` steps over an element satisfying the predicate. -/
theorem dw_cons_true {α : Type} (p : α → Bool) (x : α) (m : List α)
    (h : p x = true) : (x :: m).dropWhile p = m.dropWhile p := by
  rw [List.dropWhile_cons, h]
  simp

/-- `dropWhile` stops at an element failing the predicate. -/
theorem dw_cons_false {α : Type} (p : α → Bool) (x : α) (m : List α)
    (h : p x = false) : (x :: m).dropWhile p = x :: m := by
  rw [List.dropWhile_cons, h]
  simp

/-- If `dropWhile` keeps a nonempty list intact, its head fails the
predicate. -/
theorem dropWhile_self_head {α : Type} (p : α → Bool) (x : α) (m : List α)
    (h : (x :: m).dropWhile p = x :: m) : p x = false := by
  cases hp : p x
  · rfl
  · rw [dw_cons_true p x m hp] at h
    have h1 : (m.dropWhile p).length ≤ m.length :=
      (List.dropWhile_sublist (p := p) (l := m)).length_le
    rw [h] at h1
    simp at h1

/-- `bytes.strip()` on the file segment: the leading `\r\n` and the trailing
`\r\n` go, the headers and the content stay, provided the content is nonempty
and its last byte is not whitespace. -/
theorem pyStripBytes_wrap (content : Bytes) (h1 : content ≠ [])
    (h2 : rstripSet wsByte content = content) :
    pyStripBytes (c4_seg2 content) = (c4_hdr2 ++ crlfcrlf) ++ content := by
  have hrev : content.reverse.dropWhile wsByte = content.reverse := by
    have h3 := congrArg List.reverse h2
    rwa [rstripSet, List.reverse_reverse] at h3
  have hrne : content.reverse ≠ [] := by
    intro he
    exact h1 (List.reverse_eq_nil_iff.mp he)
  obtain ⟨rc, rt, hcr⟩ : ∃ rc rt, content.reverse = rc :: rt := by
    cases hc : content.reverse with
    | nil => exact absurd hc hrne
    | cons rc rt => exact ⟨rc, rt, rfl⟩
  have hrc : wsByte rc = false := by
    rw [hcr] at hrev
    exact dropWhile_self_head wsByte rc rt hrev
  have e1 : (c4_seg2 content).dropWhile wsByte
      = (c4_hdr2 ++ crlfcrlf) ++ (content ++ [13, 10]) := by
    show ((13 : Nat) :: 10 :: ((c4_hdr2 ++ crlfcrlf) ++ (content ++ [13, 10]))).dropWhile wsByte = _
    rw [dw_cons_true wsByte 13 _ (by decide), dw_cons_true wsByte 10 _ (by decide)]
    rw [show ((c4_hdr2 ++ crlfcrlf) ++ (content ++ [13, 10]) : Bytes)
          = 67 :: ((c4_hdr2.tail ++ crlfcrlf) ++ (content ++ [13, 10])) from by
        rw [show (c4_hdr2 : Bytes) = 67 :: c4_hdr2.tail from by decide]
        rfl]
    exact dw_cons_false wsByte 67 _ (by decide)
  have e2 : ((c4_hdr2 ++ crlfcrlf) ++ (content ++ [13, 10])).reverse
      = 10 :: 13 :: (content.reverse ++ (c4_hdr2 ++ crlfcrlf).reverse) := by
    rw [List.reverse_append, List.reverse_append]
    rfl
  have e3 : (((c4_hdr2 ++ crlfcrlf) ++ (content ++ [13, 10])).reverse).dropWhile wsByte
      = content.reverse ++ (c4_hdr2 ++ crlfcrlf).reverse := by
    rw [e2, dw_cons_true wsByte 10 _ (by decide), dw_cons_true wsByte 13 _ (by decide)]
    rw [hcr, List.cons_append, dw_cons_false wsByte rc _ hrc]
  rw [pyStripBytes, e1, e3, List.reverse_append, List.reverse_reverse, List.reverse_reverse]

/-- On the file segment, `parse_multipart`'s loop body stores the file part
with the original content bytes, provided the content is nonempty and carries
no trailing whitespace byte (otherwise `strip`/`rstrip` corrupt it). -/
theorem processChunk_c4_file (content : Bytes) (out : MPOut)
    (h1 : content ≠ []) (h2 : rstripSet wsByte content = content) :
    processChunk c4_endD out (c4_seg2 content)
      = adictSet out "file".toList (MPVal.file (c4_file content)) := by
  have hstrip : pyStripBytes (c4_seg2 content) = (c4_hdr2 ++ crlfcrlf) ++ content :=
    pyStripBytes_wrap content h1 h2
  have hS : (c4_hdr2 ++ crlfcrlf) ++ content
      = 67 :: ((c4_hdr2.tail ++ crlfcrlf) ++ content) := by
    rw [show (c4_hdr2 : Bytes) = 67 :: c4_hdr2.tail from by decide]
    rfl
  have hcond : ¬((c4_hdr2 ++ crlfcrlf) ++ content = []
      ∨ (c4_hdr2 ++ crlfcrlf) ++ content = [45, 45]
      ∨ (c4_hdr2 ++ crlfcrlf) ++ content = c4_endD) := by
    intro hc
    rcases hc with hc | hc | hc
    · rw [hS] at hc
      exact List.cons_ne_nil _ _ hc
    · rw [hS] at hc
      injection hc with hh _
      exact absurd hh (by decide)
    · rw [hS, show (c4_endD : Bytes) = 45 :: c4_endD.tail from by decide] at hc
      injection hc with hh _
      exact absurd hh (by decide)
  have hfind : findSubAux crlfcrlf ((c4_hdr2 ++ crlfcrlf) ++ content)
      = some c4_hdr2.length :=
    findSubAux_append_first crlfcrlf (by decide) c4_hdr2 content (by decide)
  have htake : ((c4_hdr2 ++ crlfcrlf) ++ content).take c4_hdr2.length = c4_hdr2 := by
    rw [List.append_assoc]
    exact List.take_left c4_hdr2 _
  have hdrop : ((c4_hdr2 ++ crlfcrlf) ++ content).drop (c4_hdr2.length + 4) = content :=
    List.drop_left' (by rw [List.length_append]; rfl)
  have hcrlf : rstripSet (fun b => b == 13 || b == 10) content = content := by
    have hrev : content.reverse.dropWhile wsByte = content.reverse := by
      have h3 := congrArg List.reverse h2
      rwa [rstripSet, List.reverse_reverse] at h3
    obtain ⟨rc, rt, hcr⟩ : ∃ rc rt, content.reverse = rc :: rt := by
      cases hc : content.reverse with
      | nil => exact absurd (List.reverse_eq_nil_iff.mp hc) h1
      | cons rc rt => exact ⟨rc, rt, rfl⟩
    have hrc : wsByte rc = false := by
      rw [hcr] at hrev
      exact dropWhile_self_head wsByte rc rt hrev
    have hq : (fun b => b == 13 || b == 10) rc = false := by
      rw [wsByte] at hrc
      obtain ⟨h5, _⟩ := bor_false hrc
      obtain ⟨h4, _⟩ := bor_false h5
      obtain ⟨h3, h13⟩ := bor_false h4
      obtain ⟨_, h10⟩ := bor_false h3
      show (rc == 13 || rc == 10) = false
      rw [h13, h10]
      rfl
    rw [rstripSet, hcr, dw_cons_false _ rc rt hq, ← hcr, List.reverse_reverse]
  have hscan : scanHeaders (pySplit (decodeU8 c4_hdr2) "\r\n".toList)
      = (some "Content-Disposition: form-data; name=\"file\"; filename=\"a.png\"".toList,
         some (encodeAscii "image/png".toList)) := by decide
  have hname : attrSearch "name=\"".toList
      "Content-Disposition: form-data; name=\"file\"; filename=\"a.png\"".toList
      = some "file".toList := by decide
  have hfile : attrSearch "filename=\"".toList
      "Content-Disposition: form-data; name=\"file\"; filename=\"a.png\"".toList
      = some "a.png".toList := by decide
  rw [processChunk, hstrip, if_neg hcond]
  simp only [hfind]
  rw [htake, hdrop, hcrlf]
  simp only [hscan, hname, hfile]
  rfl

set_option maxRecDepth 40000 in
/-- C4 counterexample: the claim promises byte-exact file content for
arbitrary binary content, but `ch.strip()` (line 218) also strips whitespace
bytes belonging to the file itself: content `b"A\n"` comes back as `b"A"`. -/
theorem C4_strip_corrupts_content :
    parse_multipart (c4_body [65, 10]) c4_ct
      = .ok [("lang".toList, MPVal.text "en".toList),
             ("file".toList, MPVal.file
               { filename := "a.png".toList,
                 content_type := encodeAscii "image/png".toList,
                 content := [65] })]
    ∧ [65] ≠ ([65, 10] : Bytes) :=
  ⟨by decide, by decide⟩

/-- C4: on the two-part body (text field `lang=en`, file part `file`/`a.png`),
`parse_multipart` returns the field `lang = "en"` and a file part with
byte-exact content and the declared content type — including content with
embedded boundary-like substrings (no occurrence of the actual delimiter
`--XBOUND` reaching into the seam), provided additionally that the content is
nonempty and does not end in a whitespace byte (else `strip`/`rstrip`
corrupt it, see the counterexample). -/
theorem C4_multipart_roundtrip_spec (content : Bytes)
    (h1 : content ≠ [])
    (h2 : rstripSet wsByte content = content)
    (h3 : findSubAux c4_delim ((c4_seg2 content ++ c4_delim).dropLast) = none) :
    parse_multipart (c4_body content) c4_ct
      = .ok [("lang".toList, MPVal.text "en".toList),
             ("file".toList, MPVal.file (c4_file content))] := by
  have hdne : (c4_delim : Bytes) ≠ [] := by decide
  have hsplit : pySplit (c4_body content) c4_delim
      = [] :: c4_seg1 :: c4_seg2 content :: pySplit c4_tail c4_delim := by
    have e0 : c4_body content
        = ([] : Bytes) ++ c4_delim
          ++ (c4_seg1 ++ c4_delim ++ (c4_seg2 content ++ c4_delim ++ c4_tail)) := by
      rw [c4_body]
      simp [List.append_assoc]
    rw [e0, pySplit_append c4_delim [] _ hdne (by decide)]
    rw [pySplit_append c4_delim c4_seg1 _ hdne (by decide)]
    rw [pySplit_append c4_delim (c4_seg2 content) _ hdne h3]
  have htl : pySplit c4_tail c4_delim = [c4_tail] := by decide
  have htail : ∀ o : MPOut, processChunk c4_endD o c4_tail = o := by
    intro o
    rw [processChunk, if_pos (Or.inr (Or.inl (by decide)))]
  have hbs : boundarySearch c4_ct = some "XBOUND".toList := by decide
  rw [parse_multipart]
  simp only [hbs]
  show Except.ok ((pySplit (c4_body content) c4_delim).foldl (processChunk c4_endD) []) = _
  rw [hsplit, htl]
  rw [List.foldl_cons, List.foldl_cons, List.foldl_cons, List.foldl_cons, List.foldl_nil]
  rw [show processChunk c4_endD [] [] = [] from rfl]
  rw [show processChunk c4_endD [] c4_seg1
        = [("lang".toList, MPVal.text "en".toList)] from by decide]
  rw [processChunk_c4_file content _ h1 h2]
  rw [adictSet, if_neg (by decide)]
  rw [htail]
  rfl

set_option maxRecDepth 40000 in
/-- Witness for C4 at content `b"pPNG-XBOUND-data;"`, which embeds the
boundary-like substrings `XBOUND` and `-XBOUND` without the full delimiter. -/
theorem C4_multipart_roundtrip_spec_witness :
    (encodeAscii "pPNG-XBOUND-data;".toList ≠ []
      ∧ rstripSet wsByte (encodeAscii "pPNG-XBOUND-data;".toList)
          = encodeAscii "pPNG-XBOUND-data;".toList
      ∧ findSubAux c4_delim
          ((c4_seg2 (encodeAscii "pPNG-XBOUND-data;".toList) ++ c4_delim).dropLast) = none)
    ∧ parse_multipart (c4_body (encodeAscii "pPNG-XBOUND-data;".toList)) c4_ct
        = .ok [("lang".toList, MPVal.text "en".toList),
               ("file".toList, MPVal.file (c4_file (encodeAscii "pPNG-XBOUND-data;".toList)))] :=
  ⟨⟨by decide, by decide, by decide⟩,
   C4_multipart_roundtrip_spec (encodeAscii "pPNG-XBOUND-data;".toList)
     (by decide) (by decide) (by decide)⟩
